import Mathlib

/-!
# Verification of the cfshare exposure manager

Shallow embedding, in Lean 4, of the parts of the cfshare exposure manager
(`src/manager.ts` / `src/policy.ts`, distributed as `shims.d.ts` plus the
unnamed policy module) that the specification's claims are about:

* policy merge and TTL normalization (`mergePolicy`, `normalizeTtl`),
* the per-IP fixed-window rate limiter (`buildRateLimiter`),
* path containment (`isSubPath`) and the static file origin's request
  handler (`startFileServer` / `sendFileResponse`),
* the download-quota lifecycle (`checkMaxDownloads`),
* `stopExposure`, `exposureGet` selection, and `auditQuery`.

JavaScript `Map`s are modelled as association lists, machine numbers as
`Int`/`Nat` (all the relevant source arithmetic is integer arithmetic after
`Math.trunc`), external libraries (mime lookup, HTML templates, `Date.parse`,
`JSON.parse`, percent-encoding) as oracle functions the development is
parameterized over, and the filesystem as an explicit oracle structure.
-/

namespace Cfshare

/-! ## Policy data model (`types.ts`, defaults and merge from `policy.ts`) -/

/-- `CfsharePolicy["tunnel"]`. Enum fields kept as raw strings; validity is
proved, not assumed. -/
structure TunnelPolicy where
  edgeIpVersion : String
  protocol : String
deriving Repr, DecidableEq

/-- `RateLimitPolicy` (the `rateLimit` block of the policy). -/
structure RateLimitPolicy where
  enabled : Bool
  windowMs : Int
  maxRequests : Int
deriving Repr, DecidableEq

/-- `CfsharePolicy`. -/
structure CfsharePolicy where
  defaultTtlSeconds : Int
  maxTtlSeconds : Int
  defaultExposePortAccess : String
  defaultExposeFilesAccess : String
  blockedPorts : List Int
  allowedPathRoots : List String
  tunnel : TunnelPolicy
  rateLimit : RateLimitPolicy
deriving Repr, DecidableEq

/-- `DEFAULT_POLICY` from `policy.ts`. -/
def DEFAULT_POLICY : CfsharePolicy where
  defaultTtlSeconds := 3600
  maxTtlSeconds := 86400
  defaultExposePortAccess := "token"
  defaultExposeFilesAccess := "none"
  blockedPorts := [22, 2375, 2376]
  allowedPathRoots := []
  tunnel := { edgeIpVersion := "4", protocol := "http2" }
  rateLimit := { enabled := true, windowMs := 60000, maxRequests := 240 }

/-- A partial `tunnel` block as it appears in a config source (each key
optional, as with a JS object spread). -/
structure PartialTunnel where
  edgeIpVersion : Option String
  protocol : Option String
deriving Repr, DecidableEq

/-- An **unvalidated** JSON value of a policy source's `rateLimit` block.
Unlike the top-level TTL fields (which are `typeof === "number"`-guarded),
the `rateLimit` block is merged by a plain object spread of
`Record<string, unknown>` data (the user-editable `policy.json`, and
`set_policy` patches whose schema is `Type.Any`), so any JSON value can
reach `Math.trunc` and `!== false`.  Values are modelled up to those two
observations: `num n` is a JSON number (integer model); `boolean`/`nullValue`
cover the literals (`ToNumber` maps `true`/`false`/`null` to 1/0/0);
`strNum n` is a string whose `ToNumber` is the integer `n`; `nonNumeric` is
any value whose `ToNumber` is `NaN` (a non-numeric string such as `"fast"`,
a plain object, `undefined`). -/
inductive JsValue
  | num (n : Int)
  | boolean (b : Bool)
  | nullValue
  | strNum (n : Int)
  | nonNumeric
deriving Repr, DecidableEq

/-- `Math.trunc(v)` on an unvalidated value: an integer, or `NaN` (`none`). -/
def jsTrunc : JsValue → Option Int
  | JsValue.num n => some n
  | JsValue.boolean b => some (if b then 1 else 0)
  | JsValue.nullValue => some 0
  | JsValue.strNum n => some n
  | JsValue.nonNumeric => none

/-- Whether a value is the literal `false` (what `v !== false` observes). -/
def jsIsFalse : JsValue → Bool
  | JsValue.boolean false => true
  | _ => false

/-- `Math.min(hi, Math.max(lo, x))` with JS `NaN` propagation
(`Math.max(lo, NaN) = NaN` and `Math.min(hi, NaN) = NaN`, so the clamp maps
`NaN` to `NaN`). -/
def clampNaN (lo hi : Int) (x : Option Int) : Option Int :=
  x.map fun n => min hi (max lo n)

/-- A partial `rateLimit` block of a config source, carrying unvalidated
values. -/
structure PartialRateLimit where
  enabled : Option JsValue
  windowMs : Option JsValue
  maxRequests : Option JsValue
deriving Repr, DecidableEq

/-- The `rateLimit` block after the object spread, before clamping: each
field holds an unvalidated value. -/
structure RawRateLimit where
  enabled : JsValue
  windowMs : JsValue
  maxRequests : JsValue
deriving Repr, DecidableEq

/-- The `rateLimit` block of the merged policy as it exists at runtime: the
numeric fields are `NaN` (`none`) when a non-numeric override escaped the
clamp (the TypeScript type says `number`, but nothing enforces it). -/
structure MergedRateLimit where
  enabled : Bool
  windowMs : Option Int
  maxRequests : Option Int
deriving Repr, DecidableEq

/-- A config source (`CfsharePluginConfig`, or the on-disk policy JSON read
into `fileConfig`).  Fields absent from the JSON are `none`.  The top-level
TTL fields are `typeof === "number"`-guarded in the source, so they are
modelled as integers (the policy fields are specified as integers and
`Math.trunc` is the identity on them); the `rateLimit` block is spread
unvalidated and keeps raw `JsValue`s; list entries that are not of the
expected primitive type are modelled by `none` entries, which the source
filters out (`asPortArray`/`asStringArray` drop non-numbers resp.
non-strings). -/
structure ConfigSource where
  defaultTtlSeconds : Option Int
  maxTtlSeconds : Option Int
  defaultExposePortAccess : Option String
  defaultExposeFilesAccess : Option String
  blockedPorts : Option (List (Option Int))
  allowedPathRoots : Option (List (Option String))
  tunnel : Option PartialTunnel
  rateLimit : Option PartialRateLimit
deriving Repr, DecidableEq

/-- `isAccessMode` from `policy.ts`. -/
def isAccessMode (value : String) : Bool :=
  value = "token" || value = "basic" || value = "none"

/-- `normalizeAccess` from `policy.ts`: keep a valid access mode, otherwise
fall back.  A `none` input models an absent (or non-string) config value,
which likewise fails the `isAccessMode` test. -/
def normalizeAccess (value : Option String) (fallback : String) : String :=
  match value with
  | some v => if isAccessMode v then v else fallback
  | none => fallback

/-- `asPortArray` from `policy.ts`: drop non-numbers, keep integers in
`(0, 65535]`, deduplicate preserving first occurrence. -/
def asPortArray (input : Option (List (Option Int))) : Option (List Int) :=
  input.map fun l => ((l.filterMap id).filter fun v => 0 < v && v ≤ 65535).dedup

/-- `asStringArray` from `policy.ts`: drop non-strings, trim, drop empties. -/
def asStringArray (input : Option (List (Option String))) : Option (List String) :=
  input.map fun l => ((l.filterMap id).map String.trim).filter (· ≠ "")

/-- Object-spread merge of the `tunnel` blocks:
`{...defaults.tunnel, ...(pluginConfig.tunnel ?? {}), ...fileTunnel}`. -/
def spreadTunnel (d : TunnelPolicy) (p : PartialTunnel) (f : PartialTunnel) : TunnelPolicy where
  edgeIpVersion := f.edgeIpVersion.getD (p.edgeIpVersion.getD d.edgeIpVersion)
  protocol := f.protocol.getD (p.protocol.getD d.protocol)

/-- Object-spread merge of the `rateLimit` blocks
(`{...defaults.rateLimit, ...(pluginConfig.rateLimit ?? {}), ...fileRateLimit}`):
the well-typed defaults enter as JSON booleans/numbers, overrides stay
unvalidated. -/
def spreadRateLimit (d : RateLimitPolicy) (p : PartialRateLimit) (f : PartialRateLimit) :
    RawRateLimit where
  enabled := f.enabled.getD (p.enabled.getD (JsValue.boolean d.enabled))
  windowMs := f.windowMs.getD (p.windowMs.getD (JsValue.num d.windowMs))
  maxRequests := f.maxRequests.getD (p.maxRequests.getD (JsValue.num d.maxRequests))

/-- The empty partial tunnel block (`?? {}` in the source). -/
def emptyPartialTunnel : PartialTunnel := ⟨none, none⟩

/-- The empty partial rateLimit block. -/
def emptyPartialRateLimit : PartialRateLimit := ⟨none, none, none⟩

/-- The merged policy as it exists at runtime: like `CfsharePolicy`, except
that the `rateLimit` numeric fields may be `NaN` (the TypeScript return type
`CfsharePolicy` is not enforced for the spread-merged block). -/
structure MergedPolicy where
  defaultTtlSeconds : Int
  maxTtlSeconds : Int
  defaultExposePortAccess : String
  defaultExposeFilesAccess : String
  blockedPorts : List Int
  allowedPathRoots : List String
  tunnel : TunnelPolicy
  rateLimit : MergedRateLimit
deriving Repr, DecidableEq

/-- `mergePolicy` from `policy.ts`: merge built-in defaults, plugin config and
on-disk policy JSON (highest precedence last), then clamp numeric fields and
validate enum fields.  Nothing reads `merged.rateLimit` between the spread
and the clamp lines, so the raw block is threaded directly into the clamp. -/
def mergePolicy (defaults : CfsharePolicy) (pluginConfig : ConfigSource)
    (fileConfig : ConfigSource) : MergedPolicy :=
  let fileTunnel := fileConfig.tunnel.getD emptyPartialTunnel
  let fileRateLimit := fileConfig.rateLimit.getD emptyPartialRateLimit
  let mergedTunnel :=
    spreadTunnel defaults.tunnel (pluginConfig.tunnel.getD emptyPartialTunnel) fileTunnel
  let mergedRateLimit :=
    spreadRateLimit defaults.rateLimit (pluginConfig.rateLimit.getD emptyPartialRateLimit)
      fileRateLimit
  -- merged.defaultTtlSeconds = Math.max(60, Math.trunc(...)); the TTL fields
  -- are typeof-guarded numbers, so Math.trunc is the identity on the integer
  -- model.
  let dTtl := max 60
    (fileConfig.defaultTtlSeconds.getD
      (pluginConfig.defaultTtlSeconds.getD defaults.defaultTtlSeconds))
  let mTtl := max dTtl
    (fileConfig.maxTtlSeconds.getD
      (pluginConfig.maxTtlSeconds.getD defaults.maxTtlSeconds))
  let edge :=
    if mergedTunnel.edgeIpVersion ≠ "4" ∧ mergedTunnel.edgeIpVersion ≠ "6" ∧
        mergedTunnel.edgeIpVersion ≠ "auto" then
      defaults.tunnel.edgeIpVersion
    else mergedTunnel.edgeIpVersion
  let protocol :=
    if mergedTunnel.protocol ≠ "http2" ∧ mergedTunnel.protocol ≠ "quic" ∧
        mergedTunnel.protocol ≠ "auto" then
      defaults.tunnel.protocol
    else mergedTunnel.protocol
  { defaultTtlSeconds := dTtl
    maxTtlSeconds := mTtl
    defaultExposePortAccess :=
      normalizeAccess fileConfig.defaultExposePortAccess
        (normalizeAccess pluginConfig.defaultExposePortAccess defaults.defaultExposePortAccess)
    defaultExposeFilesAccess :=
      normalizeAccess fileConfig.defaultExposeFilesAccess
        (normalizeAccess pluginConfig.defaultExposeFilesAccess defaults.defaultExposeFilesAccess)
    blockedPorts :=
      (asPortArray fileConfig.blockedPorts).getD
        ((asPortArray pluginConfig.blockedPorts).getD defaults.blockedPorts)
    allowedPathRoots :=
      (asStringArray fileConfig.allowedPathRoots).getD
        ((asStringArray pluginConfig.allowedPathRoots).getD defaults.allowedPathRoots)
    tunnel := { edgeIpVersion := edge, protocol := protocol }
    rateLimit := {
      -- merged.rateLimit.enabled = merged.rateLimit.enabled !== false
      enabled := !jsIsFalse mergedRateLimit.enabled
      -- Math.min(3_600_000, Math.max(1000, Math.trunc(...))) — NaN escapes
      windowMs := clampNaN 1000 3600000 (jsTrunc mergedRateLimit.windowMs)
      maxRequests := clampNaN 1 100000 (jsTrunc mergedRateLimit.maxRequests) } }

/-! ## TTL normalization (`normalizeTtl` from `manager.ts`) -/

/-- `normalizeTtl`: a non-number (absent) requested TTL falls back to
`policy.defaultTtlSeconds`; the result is clamped into
`[60, policy.maxTtlSeconds]`. -/
def normalizeTtl (value : Option Int) (policy : CfsharePolicy) : Int :=
  let n := value.getD policy.defaultTtlSeconds
  max 60 (min policy.maxTtlSeconds n)

/-- The creation-time bookkeeping shared by `exposePort` and `exposeFiles`:
`expiresAt = Date.now() + ttlSeconds * 1000`, `createdAt = nowIso()`,
modelled at a single logical instant `nowMs` (both read the wall clock during
one synchronous creation step). -/
structure SessionTimes where
  createdAtMs : Int
  expiresAtMs : Int
deriving Repr, DecidableEq

/-- The TTL/expiry computation of `exposePort`/`exposeFiles`. -/
def exposeSessionTimes (nowMs : Int) (ttlSecondsRequested : Option Int)
    (policy : CfsharePolicy) : SessionTimes :=
  let ttlSeconds := normalizeTtl ttlSecondsRequested policy
  { createdAtMs := nowMs, expiresAtMs := nowMs + ttlSeconds * 1000 }

/-! ## Rate limiter (`buildRateLimiter` from `manager.ts`) -/

/-- `RateLimitState`: one fixed window per client IP. -/
structure RateLimitState where
  windowStart : Int
  count : Int
deriving Repr, DecidableEq

/-- The limiter's `Map<string, RateLimitState>`, as an association list. -/
abbrev LimiterMap := List (String × RateLimitState)

/-- `state.set(ip, row)`: replace or insert the binding for `ip`. -/
def limiterSet (state : LimiterMap) (ip : String) (row : RateLimitState) : LimiterMap :=
  if (state.lookup ip).isSome then
    state.map fun p => if p.1 = ip then (ip, row) else p
  else
    state ++ [(ip, row)]

/-- One call of the closure returned by `buildRateLimiter`, at wall-clock time
`now`: returns whether the request is allowed together with the updated map.
A disabled limiter is `() => true` and keeps no state. -/
def rateLimiterAllow (policy : RateLimitPolicy) (state : LimiterMap) (ip : String)
    (now : Int) : Bool × LimiterMap :=
  if !policy.enabled then
    (true, state)
  else
    match state.lookup ip with
    | none => (true, limiterSet state ip ⟨now, 1⟩)
    | some row =>
      if now - row.windowStart ≥ policy.windowMs then
        (true, limiterSet state ip ⟨now, 1⟩)
      else if row.count ≥ policy.maxRequests then
        (false, state)
      else
        (true, limiterSet state ip ⟨row.windowStart, row.count + 1⟩)

/-! ## String primitives

The JS string operations the sources use, modelled over the character list
of a `String` (so that every definition evaluates by kernel reduction). -/

/-- JS `s.startsWith(p)`. -/
def strStartsWith (s p : String) : Bool :=
  p.data.isPrefixOf s.data

/-- JS `s.endsWith(p)`. -/
def strEndsWith (s p : String) : Bool :=
  p.data.reverse.isPrefixOf s.data.reverse

/-- JS `s.toUpperCase()` (ASCII; the sources only compare against ASCII
literals). -/
def strToUpper (s : String) : String :=
  ⟨s.data.map Char.toUpper⟩

/-- JS `s.toLowerCase()` (ASCII). -/
def strToLower (s : String) : String :=
  ⟨s.data.map Char.toLower⟩

/-- JS `s.trim()`: strip leading and trailing whitespace. -/
def strTrim (s : String) : String :=
  ⟨((s.data.dropWhile Char.isWhitespace).reverse.dropWhile Char.isWhitespace).reverse⟩

/-- The first `n` characters (`s.slice(0, n)` on strings without surrogate
pairs). -/
def strTake (s : String) (n : Nat) : String :=
  ⟨s.data.take n⟩

/-- Drop the first `n` characters. -/
def strDrop (s : String) (n : Nat) : String :=
  ⟨s.data.drop n⟩

/-- Split a character list on a separator character (semantics of JS
`s.split(sep)` / `String.splitOn` for one-character separators). -/
def splitChars (sep : Char) : List Char → List (List Char)
  | [] => [[]]
  | x :: xs =>
    if x = sep then
      [] :: splitChars sep xs
    else
      match splitChars sep xs with
      | [] => [[x]]
      | g :: gs => (x :: g) :: gs

/-- JS `s.split(sep)` for a one-character separator. -/
def strSplitOn (s : String) (sep : Char) : List String :=
  (splitChars sep s.data).map String.mk

/-- The numeric value of a digit string (`Number.parseInt(s, 10)` on an
all-digit string). -/
def digitsVal (l : List Char) : Nat :=
  l.foldl (fun n c => n * 10 + (c.toNat - 48)) 0

/-- `Number.parseInt(s, 10)` restricted to all-digit strings (which is what
the range-header regex groups guarantee); `none` on the empty string. -/
def parseDigits (s : String) : Option Nat :=
  if s.data ≠ [] ∧ s.data.all Char.isDigit then some (digitsVal s.data) else none

/-! ## POSIX path model (`path.join` / `path.relative` / `isSubPath`)

An absolute POSIX path is modelled as its list of segments (the path
`/a/b/c` is `["a","b","c"]`).  `node:path` normalization on absolute paths
drops empty and `"."` segments and resolves `".."` against the accumulated
prefix (`/..` collapses to `/`). -/

/-- One step of `path.normalize` on an absolute path's segments. -/
def normStep (acc : List String) (seg : String) : List String :=
  if seg = "" || seg = "." then acc
  else if seg = ".." then acc.dropLast
  else acc ++ [seg]

/-- Normalize the segment list of an absolute path. -/
def normSegs (segs : List String) : List String :=
  segs.foldl normStep []

/-- `path.join(base, rel)` for an absolute `base`: concatenate and
normalize. -/
def joinSegs (base rel : List String) : List String :=
  normSegs (base ++ rel)

/-- Splitting a path string on `/` (the segments `path.join` and the URL
pathname see; empty segments are dropped by normalization). -/
def splitSlash (s : String) : List String :=
  strSplitOn s '/'

/-- Length of the common segment prefix of two paths. -/
def commonPrefixLen : List String → List String → Nat
  | a :: as, b :: bs => if a = b then commonPrefixLen as bs + 1 else 0
  | _, _ => 0

/-- `path.relative(base, target)` on resolved absolute paths: walk up from
`base` to the common prefix, then down into `target`. -/
def relativeSegs (base target : List String) : List String :=
  List.replicate (base.length - commonPrefixLen base target) ".." ++
    target.drop (commonPrefixLen base target)

/-- Whether the path string `rel.join("/")` starts with `".."`: the separator
`/` never begins `".."`, so this holds exactly when the first segment starts
with `".."`. -/
def relStartsWithDotDot : List String → Bool
  | [] => false
  | s :: _ => strStartsWith s ".."

/-- `isSubPath(target, base)` from `manager.ts`:
`rel = path.relative(base, target)` (which resolves both paths), then
`rel === "" || (!rel.startsWith("..") && !path.isAbsolute(rel))`.
`path.relative` of two absolute POSIX paths is never absolute. -/
def isSubPath (target base : List String) : Bool :=
  (relativeSegs (normSegs base) (normSegs target)).isEmpty ||
    !relStartsWithDotDot (relativeSegs (normSegs base) (normSegs target))

/-- A segment is *plain* when normalization appends it verbatim. -/
def plainSeg (s : String) : Bool :=
  s ≠ "" && s ≠ "." && s ≠ ".."

/-- A normalized absolute path: every segment plain. -/
def normalizedPath (l : List String) : Bool :=
  l.all plainSeg

/-! ## Static file origin (`sendFileResponse` / `startFileServer`) -/

/-- Session `stats` (requests, downloads, bytesSent, lastAccessAt). -/
structure Stats where
  requests : Nat
  downloads : Nat
  bytesSent : Nat
  lastAccessAt : Option Int
deriving Repr, DecidableEq

/-- A response body: empty (HEAD), raw bytes, or a JSON error object
`{error: e}`. -/
inductive Body
  | empty
  | bytes (bs : List Nat)
  | errorJson (e : String)
deriving Repr, DecidableEq

/-- An HTTP response as the origin writes it. -/
structure Response where
  status : Nat
  headers : List (String × String)
  body : Body
deriving Repr, DecidableEq

/-- Filesystem oracle: `fileExists`, `stat.isFile()`, and file contents
(`stat.size` is the content length). -/
structure FileSystem where
  existsAt : List String → Bool
  isFileAt : List String → Bool
  contentAt : List String → List Nat

/-- Oracles for the external collaborators of the file origin: the
`mime-types` lookup, the markdown preview template
(`buildMarkdownPreviewHtml`, a pure function of title and raw content), and
`encodeURIComponent`. -/
structure RenderOracles where
  mimeLookup : List String → Option String
  previewHtml : String → List Nat → List Nat
  encodeURIComponent : String → String

/-- `FilePresentationMode`. -/
inductive FilePresentationMode
  | download
  | preview
  | raw
deriving Repr, DecidableEq

/-- `mode` of a files exposure. -/
inductive FileShareMode
  | normal
  | zip
deriving Repr, DecidableEq

/-- `isTextLikeMime` from `manager.ts`. -/
def isTextLikeMime (mime : String) : Bool :=
  let base := strToLower (strTrim ((strSplitOn mime ';').headD ""))
  if base = "" then false
  else if strStartsWith base "text/" then true
  else if strEndsWith base "+json" || strEndsWith base "+xml" then true
  else
    base = "application/json" || base = "application/xml" ||
    base = "application/javascript" || base = "application/x-javascript" ||
    base = "application/typescript" || base = "application/x-typescript" ||
    base = "application/yaml" || base = "application/x-yaml" ||
    base = "application/toml" || base = "application/graphql" ||
    base = "application/sql"

/-- The suffix of a basename starting at its last `'.'`, ignoring a dot in
first position (`path.extname` for the plain basenames that can occur in a
workspace). -/
def lastDotSuffix : List Char → Option (List Char)
  | [] => none
  | c :: cs =>
    match lastDotSuffix cs with
    | some suf => some suf
    | none => if c = '.' then some (c :: cs) else none

/-- `path.extname` on a path's basename. -/
def extnameOf (basename : List Char) : List Char :=
  match basename with
  | [] => []
  | _ :: rest =>
    match lastDotSuffix rest with
    | some suf => suf
    | none => []

/-- `MARKDOWN_PREVIEW_EXTENSIONS`. -/
def MARKDOWN_PREVIEW_EXTENSIONS : List String := [".md", ".rmd", ".qmd"]

/-- `shouldRenderMarkdownPreview` from `manager.ts`. -/
def shouldRenderMarkdownPreview (filePath : List String)
    (presentation : FilePresentationMode) : Bool :=
  if presentation ≠ FilePresentationMode.preview then false
  else
    MARKDOWN_PREVIEW_EXTENSIONS.contains
      (strToLower ⟨extnameOf (filePath.getLastD "").data⟩)

/-- An apostrophe, as a string (U+0027). -/
def apostrophe : String := ⟨[Char.ofNat 39]⟩

/-- `buildContentDisposition` from `manager.ts`: none for `raw`, else
`inline`/`attachment` with an RFC 5987 encoded filename. -/
def buildContentDisposition (orc : RenderOracles) (mode : FilePresentationMode)
    (filePath : List String) (downloadName : Option String) : Option String :=
  if mode = FilePresentationMode.raw then none
  else
    let verb := if mode = FilePresentationMode.preview then "inline" else "attachment"
    let filename := downloadName.getD (filePath.getLastD "")
    some (verb ++ "; filename*=UTF-8" ++ apostrophe ++ apostrophe ++
      orc.encodeURIComponent filename)

/-- `ensureString` from `manager.ts` on an optional header value: trim, and
drop empty results. -/
def ensureString (input : Option String) : Option String :=
  input.bind fun s =>
    let t := strTrim s
    if t = "" then none else some t

/-- `const start = match[1] ? Number.parseInt(match[1], 10) : 0` of
`sendFileResponse`. -/
def rangeStart (group : Option Nat) : Int :=
  (group.getD 0 : Nat)

/-- `const end = match[2] ? Number.parseInt(match[2], 10) : stat.size - 1` of
`sendFileResponse`. -/
def rangeEnd (group : Option Nat) (size : Nat) : Int :=
  match group with
  | some b => (b : Int)
  | none => (size : Int) - 1

/-- The regex `/^bytes=(\d*)-(\d*)$/i`: on a match, the two (possibly empty)
digit groups, parsed.  `none` in a component models an empty group. -/
def parseRangeHeader (s : String) : Option (Option Nat × Option Nat) :=
  if strToLower (strTake s 6) = "bytes=" then
    match strSplitOn (strDrop s 6) '-' with
    | [a, b] =>
      if a.data.all Char.isDigit && b.data.all Char.isDigit then
        some (parseDigits a, parseDigits b)
      else none
    | _ => none
  else none

/-- The arguments of `sendFileResponse` (request-derived fields plus the
parameters the caller passes). -/
structure SendFileArgs where
  methodRaw : Option String
  rangeHeader : Option String
  filePath : List String
  downloadName : Option String
  presentation : FilePresentationMode
  countAsDownload : Bool

/-- The JSON error response constructor used throughout the origin
(`res.writeHead(status, {"content-type": "application/json"})` followed by
`res.end(JSON.stringify({error}))`). -/
def jsonError (status : Nat) (e : String) : Response where
  status := status
  headers := [("content-type", "application/json")]
  body := Body.errorJson e

/-- `sendFileResponse` from `manager.ts`: method gate, markdown preview,
full response, or ranged response; download/byte accounting on the session
stats. -/
def sendFileResponse (orc : RenderOracles) (fs : FileSystem) (a : SendFileArgs)
    (stats : Stats) : Response × Stats :=
  let content := fs.contentAt a.filePath
  let size := content.length
  let detectedMime := (orc.mimeLookup a.filePath).getD "application/octet-stream"
  let mime :=
    if a.presentation = FilePresentationMode.raw ∧ isTextLikeMime detectedMime then
      "text/plain; charset=utf-8"
    else detectedMime
  let method := strToUpper (a.methodRaw.getD "GET")
  let dlIncr := if a.countAsDownload then 1 else 0
  if method ≠ "GET" ∧ method ≠ "HEAD" then
    (jsonError 405 "method_not_allowed", stats)
  else if shouldRenderMarkdownPreview a.filePath a.presentation then
    let body := orc.previewHtml (a.downloadName.getD (a.filePath.getLastD "")) content
    let headers := [("content-type", "text/html; charset=utf-8"),
      ("cache-control", "no-store"), ("x-content-type-options", "nosniff"),
      ("content-length", toString body.length)]
    if method = "HEAD" then
      (⟨200, headers, Body.empty⟩, stats)
    else
      (⟨200, headers, Body.bytes body⟩,
        { stats with downloads := stats.downloads + dlIncr,
                     bytesSent := stats.bytesSent + body.length })
  else
    let baseHeaders := [("content-type", mime), ("accept-ranges", "bytes"),
      ("cache-control", "no-store"), ("x-content-type-options", "nosniff")]
    let headers :=
      match buildContentDisposition orc a.presentation a.filePath a.downloadName with
      | some cd => baseHeaders ++ [("content-disposition", cd)]
      | none => baseHeaders
    match ensureString a.rangeHeader with
    | none =>
      let headers := headers ++ [("content-length", toString size)]
      if method = "HEAD" then
        (⟨200, headers, Body.empty⟩, stats)
      else
        (⟨200, headers, Body.bytes content⟩,
          { stats with downloads := stats.downloads + dlIncr,
                       bytesSent := stats.bytesSent + size })
    | some range =>
      match parseRangeHeader range with
      | none => (jsonError 416 "invalid_range", stats)
      | some (startGroup, endGroup) =>
        let start : Int := rangeStart startGroup
        let endI : Int := rangeEnd endGroup size
        -- parsed digit groups are finite and nonnegative, so the source's
        -- `!Number.isFinite(start) || ... || start < 0` tests cannot fire
        if endI < start ∨ (size : Int) ≤ endI then
          (jsonError 416 "invalid_range", stats)
        else
          let len := (endI - start + 1).toNat
          let headers := headers ++ [("content-length", toString len),
            ("content-range",
              "bytes " ++ toString start ++ "-" ++ toString endI ++ "/" ++ toString size)]
          if method = "HEAD" then
            (⟨206, headers, Body.empty⟩, stats)
          else
            (⟨206, headers, Body.bytes ((content.drop start.toNat).take len)⟩,
              { stats with downloads := stats.downloads + dlIncr,
                           bytesSent := stats.bytesSent + len })

/-- A request as the file-server handler sees it: the (already
percent-decoded) pathname `decodeURIComponent(url.pathname)`, the raw method,
the raw `range` header, and the client IP (`req.socket.remoteAddress ??
"unknown"`).  Theorems quantify over every decoded pathname. -/
structure FileRequest where
  methodRaw : Option String
  path : String
  rangeHeader : Option String
  clientIp : String

/-- The closure state of one `startFileServer` invocation. -/
structure FileServerParams where
  workspaceDir : List String
  mode : FileShareMode
  presentation : FilePresentationMode
  maxDownloads : Option Int
  /-- names of `explorerManifest` entries (workspace-relative POSIX paths) -/
  explorerManifestNames : List String
  /-- whether `zipBundle` is defined (zip mode built a bundle) -/
  hasZipBundle : Bool
  /-- bytes of `renderFileExplorerTemplate(...)` (external template oracle) -/
  explorerBody : List Nat

/-- `path.join(workspaceDir, "_cfshare_bundle.zip")` (from
`createZipArchive`). -/
def zipBundlePath (workspaceDir : List String) : List String :=
  joinSegs workspaceDir ["_cfshare_bundle.zip"]

/-- `pathname.replace(/^\/+/, "")`. -/
def stripLeadingSlashes (s : String) : String :=
  ⟨s.data.dropWhile (· = '/')⟩

/-- `checkMaxDownloads` from `startFileServer`: after a file response, stop
the session with reason `max_downloads_reached` once
`stats.downloads >= maxDownloads`. -/
def checkMaxDownloadsReason (maxDownloads : Option Int) (stats : Stats) : Option String :=
  match maxDownloads with
  | none => none
  | some m => if m ≤ (stats.downloads : Int) then some "max_downloads_reached" else none

/-- What one run of the file-server request handler produced: the response,
the updated session stats and limiter table, the stop reason passed to
`stopExposure` when `checkMaxDownloads` fired, and (for specification
purposes) the `filePath` handed to `sendFileResponse`, if any. -/
structure HandlerOutcome where
  response : Response
  stats : Stats
  limiter : LimiterMap
  stopReason : Option String
  servedFile : Option (List String)
deriving Repr, DecidableEq

/-- The request handler installed by `startFileServer`, at wall-clock time
`now`. -/
def handleFileRequest (policy : RateLimitPolicy) (orc : RenderOracles)
    (fs : FileSystem) (p : FileServerParams) (limiter : LimiterMap)
    (stats0 : Stats) (req : FileRequest) (now : Int) : HandlerOutcome :=
  let stats := { stats0 with requests := stats0.requests + 1, lastAccessAt := some now }
  let allowed := rateLimiterAllow policy limiter req.clientIp now
  if !allowed.1 then
    { response := jsonError 429 "rate_limited", stats := stats, limiter := allowed.2,
      stopReason := none, servedFile := none }
  else if req.path = "/" then
    if p.mode = FileShareMode.normal ∧ p.presentation = FilePresentationMode.preview ∧
        p.explorerManifestNames.length = 1 then
      let filePath := joinSegs p.workspaceDir (splitSlash (p.explorerManifestNames.headD ""))
      let sent := sendFileResponse orc fs
        { methodRaw := req.methodRaw, rangeHeader := req.rangeHeader,
          filePath := filePath, downloadName := none,
          presentation := p.presentation, countAsDownload := true } stats
      { response := sent.1, stats := sent.2, limiter := allowed.2,
        stopReason := checkMaxDownloadsReason p.maxDownloads sent.2,
        servedFile := some filePath }
    else
      let body := p.explorerBody
      let headers := [("content-type", "text/html; charset=utf-8"),
        ("cache-control", "no-store"), ("x-content-type-options", "nosniff"),
        ("content-length", toString body.length)]
      if strToUpper (req.methodRaw.getD "GET") = "HEAD" then
        { response := ⟨200, headers, Body.empty⟩, stats := stats, limiter := allowed.2,
          stopReason := none, servedFile := none }
      else
        { response := ⟨200, headers, Body.bytes body⟩,
          stats := { stats with bytesSent := stats.bytesSent + body.length },
          limiter := allowed.2, stopReason := none, servedFile := none }
  else if p.mode = FileShareMode.zip then
    if req.path ≠ "/download.zip" ∨ ¬p.hasZipBundle then
      { response := jsonError 404 "not_found", stats := stats, limiter := allowed.2,
        stopReason := none, servedFile := none }
    else
      let filePath := zipBundlePath p.workspaceDir
      let sent := sendFileResponse orc fs
        { methodRaw := req.methodRaw, rangeHeader := req.rangeHeader,
          filePath := filePath, downloadName := none,
          presentation := p.presentation, countAsDownload := true } stats
      { response := sent.1, stats := sent.2, limiter := allowed.2,
        stopReason := checkMaxDownloadsReason p.maxDownloads sent.2,
        servedFile := some filePath }
  else
    let normalized := stripLeadingSlashes req.path
    let target := joinSegs p.workspaceDir (splitSlash normalized)
    if ¬isSubPath target p.workspaceDir ∨ ¬fs.existsAt target then
      { response := jsonError 404 "not_found", stats := stats, limiter := allowed.2,
        stopReason := none, servedFile := none }
    else if ¬fs.isFileAt target then
      { response := jsonError 404 "not_file", stats := stats, limiter := allowed.2,
        stopReason := none, servedFile := none }
    else
      let sent := sendFileResponse orc fs
        { methodRaw := req.methodRaw, rangeHeader := req.rangeHeader,
          filePath := target, downloadName := none,
          presentation := p.presentation, countAsDownload := true } stats
      { response := sent.1, stats := sent.2, limiter := allowed.2,
        stopReason := checkMaxDownloadsReason p.maxDownloads sent.2,
        servedFile := some target }

/-! ## Download-quota lifecycle (`checkMaxDownloads` + `stopExposure`) -/

/-- The per-session world the file origin acts on: the stats, whether the
session has gone through the terminal transition, the recorded stop reason
(`session.lastError`), and the limiter table of its origin server. -/
structure SessionWorld where
  stats : Stats
  terminal : Bool
  stopReason : Option String
  limiter : LimiterMap
deriving Repr, DecidableEq

/-- Process one request against a session: run the handler; when
`checkMaxDownloads` asked for a stop, the session goes through the terminal
transition (`stopExposure` with the given reason). -/
def applyRequest (policy : RateLimitPolicy) (orc : RenderOracles) (fs : FileSystem)
    (p : FileServerParams) (w : SessionWorld) (req : FileRequest) (now : Int) :
    SessionWorld :=
  let r := handleFileRequest policy orc fs p w.limiter w.stats req now
  match r.stopReason with
  | some reason =>
    { stats := r.stats, terminal := true, stopReason := some reason, limiter := r.limiter }
  | none =>
    { stats := r.stats, terminal := w.terminal, stopReason := w.stopReason,
      limiter := r.limiter }

/-- One event in the life of a files session: an HTTP request to its origin,
or a stop from one of the other termination sources (user stop, TTL expiry,
child exit).  Requests are only served while the session is live (its origin
server is closed by the terminal transition). -/
inductive FsStep (policy : RateLimitPolicy) (orc : RenderOracles) (fs : FileSystem)
    (p : FileServerParams) : SessionWorld → SessionWorld → Prop
  | request (w : SessionWorld) (req : FileRequest) (now : Int)
      (hrun : w.terminal = false) :
      FsStep policy orc fs p w (applyRequest policy orc fs p w req now)
  | stop (w : SessionWorld) (reason : Option String) (hrun : w.terminal = false) :
      FsStep policy orc fs p w { w with terminal := true, stopReason := reason }

/-- Reachability along session events. -/
abbrev ReachableWorld (policy : RateLimitPolicy) (orc : RenderOracles)
    (fs : FileSystem) (p : FileServerParams) : SessionWorld → SessionWorld → Prop :=
  Relation.ReflTransGen (FsStep policy orc fs p)

/-! ## Session table, `stopExposure` (`manager.ts`) -/

/-- The slice of an `ExposureSession` record that the stop/get operations
inspect. -/
structure SessionEntry where
  type : String
  status : String
  workspaceDir : Option String
deriving Repr, DecidableEq

/-- `this.sessions : Map<string, ExposureSession>`, as an association list
with pairwise-distinct keys. -/
abbrev SessionTable := List (String × SessionEntry)

/-- An `AuditEvent` (`{ts, event, id?, type?}`; `details` omitted). -/
structure AuditEvent where
  ts : String
  event : String
  id : Option String
  type : Option String
deriving Repr, DecidableEq

/-- `normalizeRequestedIds`: trim, drop empties, deduplicate keeping first
occurrences. -/
def normalizeRequestedIdsAux (seen : List String) : List String → List String
  | [] => []
  | item :: rest =>
    let id := strTrim item
    if id = "" ∨ id ∈ seen then normalizeRequestedIdsAux seen rest
    else id :: normalizeRequestedIdsAux (id :: seen) rest

/-- `normalizeRequestedIds` from `manager.ts`. -/
def normalizeRequestedIds (rawIds : List String) : List String :=
  normalizeRequestedIdsAux [] rawIds

/-- `this.sessions.delete(id)`. -/
def eraseKey (table : SessionTable) (id : String) : SessionTable :=
  table.filter fun p => p.1 ≠ id

/-- The outcome of `stopExposure`: the returned `{stopped, failed, cleaned}`
triple, the audit events written, and the session table afterwards. -/
structure StopOutcome where
  stopped : List String
  failed : List (String × String)
  cleaned : List String
  audit : List AuditEvent
  table : SessionTable
deriving Repr, DecidableEq

/-- The per-id loop of `stopExposure`: clear the timer, terminate the child,
close the servers (released with the entry in this model), remove the
workspace directory if it exists (collecting it into `cleaned`), write the
audit event, and remove the table entry. -/
def stopLoop (wsExists : String → Bool) (nowTs : String) (expired : Bool) :
    List String → SessionTable → StopOutcome
  | [], table => ⟨[], [], [], [], table⟩
  | id :: rest, table =>
    match table.lookup id with
    | none =>
      let r := stopLoop wsExists nowTs expired rest table
      { r with failed := (id, "not_found") :: r.failed }
    | some entry =>
      let cleanedHere :=
        match entry.workspaceDir with
        | some d => if wsExists d then [d] else []
        | none => []
      let ev : AuditEvent :=
        { ts := nowTs, event := if expired then "exposure_expired" else "exposure_stopped",
          id := some id, type := some entry.type }
      let r := stopLoop wsExists nowTs expired rest (eraseKey table id)
      { r with stopped := id :: r.stopped, cleaned := cleanedHere ++ r.cleaned,
               audit := ev :: r.audit }

/-- `stopExposure(idOrIds, opts)` from `manager.ts` (a single id is the
singleton list; the adapter wraps it).  `wsExists` is the `fileExists` oracle
on workspace paths. -/
def stopExposure (table : SessionTable) (wsExists : String → Bool) (nowTs : String)
    (idOrIds : List String) (expired : Bool) : StopOutcome :=
  let requested := normalizeRequestedIds idOrIds
  if requested = [] then
    ⟨[], [("unknown", "id or ids is required")], [], [], table⟩
  else if "all" ∈ requested then
    let ids := table.map Prod.fst
    if ids = [] then ⟨[], [("all", "not_found")], [], [], table⟩
    else
      let stopIds := normalizeRequestedIds ids
      if stopIds = [] then ⟨[], [], [], [], table⟩
      else stopLoop wsExists nowTs expired stopIds table
  else
    let failed0 := (requested.filter fun id => (table.lookup id).isNone).map
      fun id => (id, "not_found")
    let ids := requested.filter fun id => (table.lookup id).isSome
    let stopIds := normalizeRequestedIds ids
    if stopIds = [] then ⟨[], failed0, [], [], table⟩
    else
      let r := stopLoop wsExists nowTs expired stopIds table
      { r with failed := failed0 ++ r.failed }

/-! ## `exposureGet` selection (`manager.ts`) -/

/-- An `ExposureFilter` (`{status?, type?}`). -/
structure ExposureFilter where
  status : Option String
  type : Option String
deriving Repr, DecidableEq

/-- `matchesExposureFilter` (an empty-string filter value is falsy in JS and
imposes no constraint). -/
def matchesExposureFilter (s : SessionEntry) (filter : Option ExposureFilter) : Bool :=
  match filter with
  | none => true
  | some f =>
    (match f.status with
     | some st => st = "" || s.status = st
     | none => true) &&
    (match f.type with
     | some ty => ty = "" || s.type = ty
     | none => true)

/-- The result of `resolveExposureSelection`. -/
structure Selection where
  selectorUsed : Bool
  selectedIds : List String
  missingIds : List String
deriving Repr, DecidableEq

/-- `resolveExposureSelection` from `manager.ts`. -/
def resolveExposureSelection (table : SessionTable) (id : Option String)
    (ids : Option (List String)) (filter : Option ExposureFilter) : Selection :=
  let explicitIds := normalizeRequestedIds
    ((match id with | some s => [s] | none => []) ++ ids.getD [])
  if "all" ∈ explicitIds then
    { selectorUsed := true,
      selectedIds := (table.filter fun p => matchesExposureFilter p.2 filter).map Prod.fst,
      missingIds := [] }
  else if explicitIds ≠ [] then
    { selectorUsed := true,
      selectedIds := explicitIds.filter fun i =>
        match table.lookup i with
        | some s => matchesExposureFilter s filter
        | none => false,
      missingIds := explicitIds.filter fun i => (table.lookup i).isNone }
  else if filter.isSome then
    { selectorUsed := true,
      selectedIds := (table.filter fun p => matchesExposureFilter p.2 filter).map Prod.fst,
      missingIds := [] }
  else
    { selectorUsed := false, selectedIds := [], missingIds := [] }

/-- An item of a multi-shape `exposureGet` response: either the
`{id, error:"not_found"}` object from `makeExposureGetNotFound` (carrying
`status:"not_found"` as well when the `status` field was projected), or a
`buildExposureDetail` payload (abstracted to its id). -/
inductive GetItem
  | notFoundItem (id : String) (withStatus : Bool)
  | detail (id : String)
deriving Repr, DecidableEq

/-- The result of `exposureGet`: the thrown error, the legacy single-id
shapes, or the multi-item shape. -/
inductive GetResult
  | errRequired
  | legacyNotFound (id : String)
  | legacyDetail (id : String)
  | multi (items : List GetItem) (count : Nat) (matchedIds : List String)
      (matchedTotal : Nat) (truncated : Bool) (missingIds : List String)
deriving Repr, DecidableEq

/-- `MAX_EXPOSURE_GET_ITEMS`. -/
def MAX_EXPOSURE_GET_ITEMS : Nat := 200

/-- `makeExposureGetNotFound`. -/
def makeExposureGetNotFound (id : String) (fields : Option (List String)) : GetItem :=
  GetItem.notFoundItem id ((fields.getD []).contains "status")

/-- The `ExposureGetParams` selection-relevant fields. -/
structure GetParams where
  id : Option String
  ids : Option (List String)
  filter : Option ExposureFilter
  fields : Option (List String)
deriving Repr, DecidableEq

/-- `exposureGet` from `manager.ts` (detail building abstracted to the
session id; manifest pagination not modelled). -/
def exposureGet (table : SessionTable) (params : GetParams) : GetResult :=
  let fields := params.fields.map normalizeRequestedIds
  let legacySingle : Bool :=
    (match params.id with | some s => s ≠ "" && s ≠ "all" | none => false) &&
      params.ids.isNone && params.filter.isNone && params.fields.isNone
  let sel := resolveExposureSelection table params.id params.ids params.filter
  if !sel.selectorUsed then GetResult.errRequired
  else if legacySingle then
    match params.id with
    | some legacyId =>
      match table.lookup legacyId with
      | none => GetResult.legacyNotFound legacyId
      | some _ => GetResult.legacyDetail legacyId
    | none => GetResult.errRequired   -- unreachable: legacySingle forces an id
  else
    let responseSelectedIds := sel.selectedIds.take MAX_EXPOSURE_GET_ITEMS
    let truncated := decide (responseSelectedIds.length < sel.selectedIds.length)
    let items :=
      (responseSelectedIds.map fun i =>
        match table.lookup i with
        | none => makeExposureGetNotFound i fields
        | some _ => GetItem.detail i) ++
      sel.missingIds.map fun i => makeExposureGetNotFound i fields
    GetResult.multi items items.length responseSelectedIds sel.selectedIds.length
      truncated sel.missingIds

/-! ## Audit query (`auditQuery` / `matchAuditFilters`) -/

/-- The filters of `auditQuery`. -/
structure AuditFilters where
  id : Option String
  event : Option String
  type : Option String
  fromTs : Option String
  toTs : Option String
  limit : Option Int
deriving Repr, DecidableEq

/-- `filters ?? {}`. -/
def emptyAuditFilters : AuditFilters := ⟨none, none, none, none, none, none⟩

/-- `timestampMs`: `undefined` on an absent or empty input, else
`Date.parse` (`dateParse` oracle; `none` models `NaN`). -/
def timestampMs (dateParse : String → Option Int) : Option String → Option Int
  | none => none
  | some s => if s = "" then none else dateParse s

/-- `matchAuditFilters` from `manager.ts`. -/
def matchAuditFilters (dateParse : String → Option Int) (event : AuditEvent)
    (filters : AuditFilters) : Bool :=
  let fromMs := timestampMs dateParse filters.fromTs
  let toMs := timestampMs dateParse filters.toTs
  let eventMs := timestampMs dateParse (some event.ts)
  if (match filters.id with
      | some v => v ≠ "" && event.id ≠ some v
      | none => false) then false
  else if (match filters.event with
      | some v => v ≠ "" && event.event ≠ v
      | none => false) then false
  else if (match filters.type with
      | some v => v ≠ "" && event.type ≠ some v
      | none => false) then false
  else if (match filters.fromTs with | some v => v ≠ "" | none => false) &&
      (match fromMs, eventMs with
       | some f, some e => e < f
       | _, _ => event.ts < filters.fromTs.getD "") then false
  else if (match filters.toTs with | some v => v ≠ "" | none => false) &&
      (match toMs, eventMs with
       | some t, some e => t < e
       | _, _ => filters.toTs.getD "" < event.ts) then false
  else true

/-- The parsed audit file: split into lines (modelled as the line list),
trim, drop blank lines, `JSON.parse` each line through the `parseLine`
oracle, silently dropping malformed lines. -/
def parsedAuditEvents (parseLine : String → Option AuditEvent)
    (fileLines : List String) : List AuditEvent :=
  ((fileLines.map strTrim).filter (· ≠ "")).filterMap parseLine

/-- `l.slice(-n)`: the last `n` elements. -/
def takeLast {α : Type} (n : Nat) (l : List α) : List α :=
  l.drop (l.length - n)

/-- `auditQuery` from `manager.ts`: parse, filter, and return the last
`limit` matches (`limit` clamped to `[1, 10000]`, defaulting to 500). -/
def auditQuery (parseLine : String → Option AuditEvent)
    (dateParse : String → Option Int) (fileLines : List String)
    (filters : Option AuditFilters) : List AuditEvent :=
  let limit : Int := min 10000 (max 1 ((filters.bind AuditFilters.limit).getD 500))
  let events := parsedAuditEvents parseLine fileLines
  let matched := events.filter fun e =>
    matchAuditFilters dateParse e (filters.getD emptyAuditFilters)
  takeLast limit.toNat matched

/-! ## Path model lemmas -/

theorem plainSeg_iff {s : String} : plainSeg s = true ↔ s ≠ "" ∧ s ≠ "." ∧ s ≠ ".." := by
  unfold plainSeg
  simp [Bool.and_eq_true, and_assoc]

theorem normStep_of_plain {s : String} (h : plainSeg s = true) (acc : List String) :
    normStep acc s = acc ++ [s] := by
  rcases plainSeg_iff.1 h with ⟨h1, h2, h3⟩
  simp [normStep, h1, h2, h3]

theorem normStep_all_plain {acc : List String} (h : acc.all plainSeg) (seg : String) :
    (normStep acc seg).all plainSeg := by
  unfold normStep
  split
  · exact h
  · split
    · exact List.all_eq_true.2 fun x hx =>
        List.all_eq_true.1 h x (List.dropLast_subset _ hx)
    · rename_i h1 h2
      simp only [List.all_append, h, Bool.true_and, List.all_cons, List.all_nil,
        Bool.and_true]
      simp only [Bool.or_eq_true, decide_eq_true_eq] at h1
      rw [plainSeg_iff]
      exact ⟨fun hc => h1 (Or.inl hc), fun hc => h1 (Or.inr hc), h2⟩

theorem foldl_normStep_all_plain (l : List String) :
    ∀ acc : List String, acc.all plainSeg → (l.foldl normStep acc).all plainSeg := by
  induction l with
  | nil => intro acc h; exact h
  | cons s rest ih => intro acc h; exact ih _ (normStep_all_plain h s)

/-- The output of `normSegs` contains only plain segments. -/
theorem normSegs_all_plain (l : List String) : (normSegs l).all plainSeg :=
  foldl_normStep_all_plain l [] rfl

/-- Folding `normStep` over a list of plain segments just appends it. -/
theorem foldl_normStep_of_plain {l : List String} (h : l.all plainSeg) :
    ∀ acc : List String, l.foldl normStep acc = acc ++ l := by
  induction l with
  | nil => intro acc; simp
  | cons s rest ih =>
    intro acc
    simp only [List.all_cons, Bool.and_eq_true] at h
    rw [List.foldl_cons, normStep_of_plain h.1, ih h.2, List.append_assoc,
      List.singleton_append]

/-- `normSegs` is the identity on normalized paths. -/
theorem normSegs_of_plain {l : List String} (h : l.all plainSeg) : normSegs l = l := by
  unfold normSegs
  rw [foldl_normStep_of_plain h, List.nil_append]

/-- `normSegs` is idempotent. -/
theorem normSegs_idem (l : List String) : normSegs (normSegs l) = normSegs l :=
  normSegs_of_plain (normSegs_all_plain l)

theorem commonPrefixLen_le_left : ∀ a b : List String, commonPrefixLen a b ≤ a.length
  | [], _ => by simp [commonPrefixLen]
  | _ :: _, [] => by simp [commonPrefixLen]
  | a :: as, b :: bs => by
    unfold commonPrefixLen
    split
    · simpa using commonPrefixLen_le_left as bs
    · simp

theorem commonPrefixLen_take : ∀ a b : List String,
    a.take (commonPrefixLen a b) = b.take (commonPrefixLen a b)
  | [], _ => by simp [commonPrefixLen]
  | _ :: _, [] => by simp [commonPrefixLen]
  | a :: as, b :: bs => by
    unfold commonPrefixLen
    split
    · rename_i hab
      simp [List.take_succ_cons, hab, commonPrefixLen_take as bs]
    · simp

/-- When `base` is not exhausted by the common prefix, the relative path
starts with a literal `".."` segment. -/
theorem relativeSegs_dotdot {b t : List String} (h : commonPrefixLen b t < b.length) :
    ∃ rest, relativeSegs b t = ".." :: rest := by
  unfold relativeSegs
  obtain ⟨n, hn⟩ : ∃ n, b.length - commonPrefixLen b t = n + 1 :=
    ⟨b.length - commonPrefixLen b t - 1, by omega⟩
  rw [hn, List.replicate_succ, List.cons_append]
  exact ⟨_, rfl⟩

/-- Soundness of `isSubPath`: when it accepts, the normalized base is a
segment-prefix of the normalized target — the target lies (lexically) inside
the base directory. -/
theorem isSubPath_true_imp_prefix {target base : List String}
    (h : isSubPath target base = true) :
    normSegs base <+: normSegs target := by
  unfold isSubPath at h
  have hbase_len : commonPrefixLen (normSegs base) (normSegs target) =
      (normSegs base).length := by
    by_contra hne
    have hlt : commonPrefixLen (normSegs base) (normSegs target) <
        (normSegs base).length :=
      lt_of_le_of_ne (commonPrefixLen_le_left _ _) hne
    obtain ⟨rest, hrest⟩ := relativeSegs_dotdot hlt
    rw [hrest] at h
    simp only [List.isEmpty_cons, relStartsWithDotDot, Bool.false_or] at h
    have hdd : strStartsWith ".." ".." = true := by decide
    rw [hdd] at h
    exact absurd h (by decide)
  have htake := commonPrefixLen_take (normSegs base) (normSegs target)
  rw [hbase_len, List.take_length] at htake
  exact htake ▸ List.take_prefix _ _

/-! ## Claim theorems -/

/-- Validated layer-by-layer fallback keeps access modes valid. -/
theorem normalizeAccess_valid {fallback : String} (h : isAccessMode fallback = true)
    (value : Option String) : isAccessMode (normalizeAccess value fallback) = true := by
  unfold normalizeAccess
  cases value with
  | none => exact h
  | some v =>
    by_cases hv : isAccessMode v = true
    · simp [hv]
    · simp [hv, h]

/-- C7: for every `expose_port`/`expose_files` call, the effective TTL is the
requested `ttl_seconds` clamped to `[60, policy.maxTtlSeconds]` (falling back
to `policy.defaultTtlSeconds` when absent), and the session's expiry equals
its creation time plus the effective TTL in seconds. -/
theorem ttl_clamp_and_expiry (policy : CfsharePolicy)
    (hlo : 60 ≤ policy.defaultTtlSeconds)
    (hhi : policy.defaultTtlSeconds ≤ policy.maxTtlSeconds)
    (requested : Option Int) (nowMs : Int) :
    (exposeSessionTimes nowMs requested policy).createdAtMs = nowMs ∧
    (exposeSessionTimes nowMs requested policy).expiresAtMs =
      (exposeSessionTimes nowMs requested policy).createdAtMs +
        normalizeTtl requested policy * 1000 ∧
    (∀ t, requested = some t → t < 60 → normalizeTtl requested policy = 60) ∧
    (∀ t, requested = some t → 60 ≤ t → t ≤ policy.maxTtlSeconds →
      normalizeTtl requested policy = t) ∧
    (∀ t, requested = some t → policy.maxTtlSeconds < t →
      normalizeTtl requested policy = policy.maxTtlSeconds) ∧
    (requested = none → normalizeTtl requested policy = policy.defaultTtlSeconds) := by
  refine ⟨rfl, rfl, ?_, ?_, ?_, ?_⟩
  · intro t ht hlt
    subst ht
    simp only [normalizeTtl, Option.getD_some]
    omega
  · intro t ht h1 h2
    subst ht
    simp only [normalizeTtl, Option.getD_some]
    omega
  · intro t ht hgt
    subst ht
    simp only [normalizeTtl, Option.getD_some]
    omega
  · intro ht
    subst ht
    simp only [normalizeTtl, Option.getD_none]
    omega

/-- Witness for C7 at a concrete policy, request and clock: a requested TTL
of 30 clamps to 60. -/
theorem ttl_clamp_and_expiry_witness :
    normalizeTtl (some 30) DEFAULT_POLICY = 60 :=
  (ttl_clamp_and_expiry DEFAULT_POLICY (by decide) (by decide) (some 30) 5000).2.2.1
    30 rfl (by decide)

/-- C8 counterexample: a policy file carrying
`{"rateLimit":{"windowMs":"fast"}}` (a value whose `ToNumber` is `NaN`)
merges to `rateLimit.windowMs = NaN` (modelled `none`) — the clamp
`Math.min(3600000, Math.max(1000, Math.trunc(v)))` propagates `NaN`, so the
effective `windowMs` does **not** lie in `[1000, 3600000]`. -/
theorem merge_policy_claim_counterexample :
    (mergePolicy DEFAULT_POLICY
      ⟨none, none, none, none, none, none, none, none⟩
      ⟨none, none, none, none, none, none, none,
        some ⟨none, some JsValue.nonNumeric, none⟩⟩).rateLimit.windowMs = none := by
  decide

/-- C8 (amended): after merging built-in defaults, plugin config and on-disk
policy JSON (highest last), the effective policy has `defaultTtlSeconds` in
`[60, maxTtlSeconds]`, `maxTtlSeconds ≥ defaultTtlSeconds`, valid enum
fields with invalid enum values falling back to the built-in defaults, and
`rateLimit.windowMs ∈ [1000, 3600000]` resp.
`rateLimit.maxRequests ∈ [1, 100000]` whenever these fields are numbers —
which they are whenever every supplied `rateLimit` override is numeric; a
non-numeric override propagates as `NaN` (`none`) through `Math.trunc` and
escapes the clamp. -/
theorem merge_policy_bounds (pluginConfig fileConfig : ConfigSource) :
    (60 ≤ (mergePolicy DEFAULT_POLICY pluginConfig fileConfig).defaultTtlSeconds ∧
     (mergePolicy DEFAULT_POLICY pluginConfig fileConfig).defaultTtlSeconds ≤
       (mergePolicy DEFAULT_POLICY pluginConfig fileConfig).maxTtlSeconds) ∧
    (∀ n, (mergePolicy DEFAULT_POLICY pluginConfig fileConfig).rateLimit.windowMs = some n →
      1000 ≤ n ∧ n ≤ 3600000) ∧
    (∀ n, (mergePolicy DEFAULT_POLICY pluginConfig fileConfig).rateLimit.maxRequests = some n →
      1 ≤ n ∧ n ≤ 100000) ∧
    ((∀ v, (fileConfig.rateLimit.getD emptyPartialRateLimit).windowMs = some v →
        jsTrunc v ≠ none) →
     (∀ v, (pluginConfig.rateLimit.getD emptyPartialRateLimit).windowMs = some v →
        jsTrunc v ≠ none) →
     (mergePolicy DEFAULT_POLICY pluginConfig fileConfig).rateLimit.windowMs ≠ none) ∧
    ((∀ v, (fileConfig.rateLimit.getD emptyPartialRateLimit).maxRequests = some v →
        jsTrunc v ≠ none) →
     (∀ v, (pluginConfig.rateLimit.getD emptyPartialRateLimit).maxRequests = some v →
        jsTrunc v ≠ none) →
     (mergePolicy DEFAULT_POLICY pluginConfig fileConfig).rateLimit.maxRequests ≠ none) ∧
    isAccessMode (mergePolicy DEFAULT_POLICY pluginConfig fileConfig).defaultExposePortAccess =
      true ∧
    isAccessMode (mergePolicy DEFAULT_POLICY pluginConfig fileConfig).defaultExposeFilesAccess =
      true ∧
    ((mergePolicy DEFAULT_POLICY pluginConfig fileConfig).tunnel.edgeIpVersion = "4" ∨
     (mergePolicy DEFAULT_POLICY pluginConfig fileConfig).tunnel.edgeIpVersion = "6" ∨
     (mergePolicy DEFAULT_POLICY pluginConfig fileConfig).tunnel.edgeIpVersion = "auto") ∧
    ((mergePolicy DEFAULT_POLICY pluginConfig fileConfig).tunnel.protocol = "http2" ∨
     (mergePolicy DEFAULT_POLICY pluginConfig fileConfig).tunnel.protocol = "quic" ∨
     (mergePolicy DEFAULT_POLICY pluginConfig fileConfig).tunnel.protocol = "auto") ∧
    (∀ e, (spreadTunnel DEFAULT_POLICY.tunnel (pluginConfig.tunnel.getD emptyPartialTunnel)
        (fileConfig.tunnel.getD emptyPartialTunnel)).edgeIpVersion = e →
      e ≠ "4" → e ≠ "6" → e ≠ "auto" →
      (mergePolicy DEFAULT_POLICY pluginConfig fileConfig).tunnel.edgeIpVersion =
        DEFAULT_POLICY.tunnel.edgeIpVersion) ∧
    (∀ pr, (spreadTunnel DEFAULT_POLICY.tunnel (pluginConfig.tunnel.getD emptyPartialTunnel)
        (fileConfig.tunnel.getD emptyPartialTunnel)).protocol = pr →
      pr ≠ "http2" → pr ≠ "quic" → pr ≠ "auto" →
      (mergePolicy DEFAULT_POLICY pluginConfig fileConfig).tunnel.protocol =
        DEFAULT_POLICY.tunnel.protocol) ∧
    ((∀ v ∈ fileConfig.defaultExposePortAccess, isAccessMode v = false) →
     (∀ v ∈ pluginConfig.defaultExposePortAccess, isAccessMode v = false) →
     (mergePolicy DEFAULT_POLICY pluginConfig fileConfig).defaultExposePortAccess =
       DEFAULT_POLICY.defaultExposePortAccess) := by
  unfold mergePolicy
  refine ⟨?_, ?_, ?_, ?_, ?_, ?_, ?_, ?_, ?_, ?_, ?_, ?_⟩
  · dsimp only
    constructor
    · exact le_max_left 60 _
    · exact le_max_left _ _
  · dsimp only
    intro n hn
    rw [clampNaN] at hn
    cases htr : jsTrunc (spreadRateLimit DEFAULT_POLICY.rateLimit
        (pluginConfig.rateLimit.getD emptyPartialRateLimit)
        (fileConfig.rateLimit.getD emptyPartialRateLimit)).windowMs with
    | none =>
      rw [htr] at hn
      exact Option.noConfusion hn
    | some k =>
      rw [htr] at hn
      simp only [Option.map_some'] at hn
      have hk := Option.some.inj hn
      omega
  · dsimp only
    intro n hn
    rw [clampNaN] at hn
    cases htr : jsTrunc (spreadRateLimit DEFAULT_POLICY.rateLimit
        (pluginConfig.rateLimit.getD emptyPartialRateLimit)
        (fileConfig.rateLimit.getD emptyPartialRateLimit)).maxRequests with
    | none =>
      rw [htr] at hn
      exact Option.noConfusion hn
    | some k =>
      rw [htr] at hn
      simp only [Option.map_some'] at hn
      have hk := Option.some.inj hn
      omega
  · intro hfile hplugin
    dsimp only
    intro hc
    have hraw : jsTrunc (spreadRateLimit DEFAULT_POLICY.rateLimit
        (pluginConfig.rateLimit.getD emptyPartialRateLimit)
        (fileConfig.rateLimit.getD emptyPartialRateLimit)).windowMs ≠ none := by
      rw [spreadRateLimit]
      cases hf : (fileConfig.rateLimit.getD emptyPartialRateLimit).windowMs with
      | some v =>
        exact hfile v hf
      | none =>
        cases hp : (pluginConfig.rateLimit.getD emptyPartialRateLimit).windowMs with
        | some w =>
          exact hplugin w hp
        | none =>
          exact fun hx => Option.noConfusion hx
    cases hx : jsTrunc (spreadRateLimit DEFAULT_POLICY.rateLimit
        (pluginConfig.rateLimit.getD emptyPartialRateLimit)
        (fileConfig.rateLimit.getD emptyPartialRateLimit)).windowMs with
    | none => exact hraw hx
    | some k =>
      rw [clampNaN, hx] at hc
      exact Option.noConfusion hc
  · intro hfile hplugin
    dsimp only
    intro hc
    have hraw : jsTrunc (spreadRateLimit DEFAULT_POLICY.rateLimit
        (pluginConfig.rateLimit.getD emptyPartialRateLimit)
        (fileConfig.rateLimit.getD emptyPartialRateLimit)).maxRequests ≠ none := by
      rw [spreadRateLimit]
      cases hf : (fileConfig.rateLimit.getD emptyPartialRateLimit).maxRequests with
      | some v =>
        exact hfile v hf
      | none =>
        cases hp : (pluginConfig.rateLimit.getD emptyPartialRateLimit).maxRequests with
        | some w =>
          exact hplugin w hp
        | none =>
          exact fun hx => Option.noConfusion hx
    cases hx : jsTrunc (spreadRateLimit DEFAULT_POLICY.rateLimit
        (pluginConfig.rateLimit.getD emptyPartialRateLimit)
        (fileConfig.rateLimit.getD emptyPartialRateLimit)).maxRequests with
    | none => exact hraw hx
    | some k =>
      rw [clampNaN, hx] at hc
      exact Option.noConfusion hc
  · exact normalizeAccess_valid (normalizeAccess_valid (by decide) _) _
  · exact normalizeAccess_valid (normalizeAccess_valid (by decide) _) _
  · dsimp only
    split
    · left; rfl
    · rename_i h
      rcases not_and_or.1 h with h1 | h2
      · left; push_neg at h1; exact h1
      rcases not_and_or.1 h2 with h3 | h4
      · right; left; push_neg at h3; exact h3
      · right; right; push_neg at h4; exact h4
  · dsimp only
    split
    · left; rfl
    · rename_i h
      rcases not_and_or.1 h with h1 | h2
      · left; push_neg at h1; exact h1
      rcases not_and_or.1 h2 with h3 | h4
      · right; left; push_neg at h3; exact h3
      · right; right; push_neg at h4; exact h4
  · intro e he h4 h6 hauto
    dsimp only
    subst he
    rw [if_pos ⟨h4, h6, hauto⟩]
  · intro pr hpr h2 hq hauto
    dsimp only
    subst hpr
    rw [if_pos ⟨h2, hq, hauto⟩]
  · intro hfile hplugin
    dsimp only
    cases hf : fileConfig.defaultExposePortAccess with
    | none =>
      cases hp : pluginConfig.defaultExposePortAccess with
      | none => simp [normalizeAccess]
      | some v =>
        have := hplugin v (by rw [hp]; rfl)
        simp [normalizeAccess, hf, hp, this]
    | some v =>
      have hv := hfile v (by rw [hf]; rfl)
      cases hp : pluginConfig.defaultExposePortAccess with
      | none => simp [normalizeAccess, hf, hp, hv]
      | some w =>
        have hw := hplugin w (by rw [hp]; rfl)
        simp [normalizeAccess, hf, hp, hv, hw]

/-- Witness for the amended C8 at concrete (adversarial) config sources. -/
theorem merge_policy_bounds_witness :
    60 ≤ (mergePolicy DEFAULT_POLICY
      ⟨none, none, none, none, none, none, none, none⟩
      ⟨some 10, some 5, some "bogus", none, none, none, some ⟨some "9", none⟩,
        some ⟨none, some (JsValue.num 999999999), some (JsValue.num 0)⟩⟩).defaultTtlSeconds :=
  ((merge_policy_bounds ⟨none, none, none, none, none, none, none, none⟩
    ⟨some 10, some 5, some "bogus", none, none, none, some ⟨some "9", none⟩,
      some ⟨none, some (JsValue.num 999999999), some (JsValue.num 0)⟩⟩).1).1

/-- C6: the fixed-window rate limiter per client IP: a fresh or elapsed
window resets to `{windowStart := now, count := 1}` and allows; a live window
at or above `maxRequests` denies (and the origin answers
`429 {error:"rate_limited"}`); a live window below the cap increments and
allows; a disabled limiter allows everything. -/
theorem rate_limiter_fixed_window (policy : RateLimitPolicy) (state : LimiterMap)
    (ip : String) (now : Int) :
    (policy.enabled = false → rateLimiterAllow policy state ip now = (true, state)) ∧
    (policy.enabled = true →
      (state.lookup ip = none →
        rateLimiterAllow policy state ip now = (true, limiterSet state ip ⟨now, 1⟩)) ∧
      (∀ row, state.lookup ip = some row →
        (policy.windowMs ≤ now - row.windowStart →
          rateLimiterAllow policy state ip now = (true, limiterSet state ip ⟨now, 1⟩)) ∧
        (now - row.windowStart < policy.windowMs → policy.maxRequests ≤ row.count →
          rateLimiterAllow policy state ip now = (false, state)) ∧
        (now - row.windowStart < policy.windowMs → row.count < policy.maxRequests →
          rateLimiterAllow policy state ip now =
            (true, limiterSet state ip ⟨row.windowStart, row.count + 1⟩)))) ∧
    (∀ orc fs p stats0 req,
      (rateLimiterAllow policy state req.clientIp now).1 = false →
      (handleFileRequest policy orc fs p state stats0 req now).response =
        jsonError 429 "rate_limited") := by
  refine ⟨?_, ?_, ?_⟩
  · intro hdis
    simp [rateLimiterAllow, hdis]
  · intro hen
    refine ⟨?_, ?_⟩
    · intro hnone
      simp [rateLimiterAllow, hen, hnone]
    · intro row hrow
      refine ⟨?_, ?_, ?_⟩
      · intro helapsed
        simp [rateLimiterAllow, hen, hrow, helapsed]
      · intro hlive hcap
        rw [rateLimiterAllow]
        simp only [hen, Bool.not_true, Bool.false_eq_true, if_false, hrow]
        rw [if_neg (by omega), if_pos hcap]
      · intro hlive hbelow
        rw [rateLimiterAllow]
        simp only [hen, Bool.not_true, Bool.false_eq_true, if_false, hrow]
        rw [if_neg (by omega), if_neg (by omega)]
  · intro orc fs p stats0 req hdeny
    rw [handleFileRequest]
    simp only [hdeny, Bool.not_false, if_pos]

/-- Witness for C6: a full window denies the next request in the same
window. -/
theorem rate_limiter_fixed_window_witness :
    rateLimiterAllow ⟨true, 60000, 2⟩ [("ip1", ⟨100, 2⟩)] "ip1" 200 =
      (false, [("ip1", ⟨100, 2⟩)]) :=
  (((rate_limiter_fixed_window ⟨true, 60000, 2⟩ [("ip1", ⟨100, 2⟩)] "ip1" 200).2.1
    rfl).2 ⟨100, 2⟩ rfl).2.1 (by decide) (by decide)

/-- Empty filters match every audit event. -/
theorem matchAuditFilters_empty (dateParse : String → Option Int) (e : AuditEvent) :
    matchAuditFilters dateParse e emptyAuditFilters = true := by
  simp [matchAuditFilters, emptyAuditFilters]

/-- `slice(-n)` yields a subsequence. -/
theorem takeLast_sublist {α : Type} (n : Nat) (l : List α) : (takeLast n l).Sublist l :=
  List.drop_sublist _ l

/-- Length of `slice(-n)`. -/
theorem takeLast_length {α : Type} (n : Nat) (l : List α) :
    (takeLast n l).length = min n l.length := by
  simp [takeLast]
  omega

theorem parsedAuditEvents_replicate (parseLine : String → Option AuditEvent)
    (ev : AuditEvent) (s : String) (htrim : strTrim s = s) (hne : s ≠ "")
    (hp : parseLine s = some ev) :
    ∀ n, parsedAuditEvents parseLine (List.replicate n s) = List.replicate n ev := by
  intro n
  induction n with
  | zero => rfl
  | succ k ih =>
    unfold parsedAuditEvents at ih ⊢
    rw [List.replicate_succ, List.map_cons, htrim, List.filter_cons,
      if_pos (by simpa using hne), List.filterMap_cons, hp, List.replicate_succ, ih]

theorem audit_query_claim_counterexample :
    (auditQuery (fun s => if s = "E" then some ⟨"t0", "ev", none, none⟩ else none)
        (fun _ => none) (List.replicate 501 "E") none).length = 500 ∧
    (parsedAuditEvents (fun s => if s = "E" then some ⟨"t0", "ev", none, none⟩ else none)
        (List.replicate 501 "E")).length = 501 := by
  have hrep := parsedAuditEvents_replicate
    (fun s => if s = "E" then some ⟨"t0", "ev", none, none⟩ else none)
    ⟨"t0", "ev", none, none⟩ "E" (by decide) (by decide) (by simp) 501
  constructor
  · simp only [auditQuery, Option.none_bind, Option.getD_none]
    rw [List.filter_eq_self.2 (fun e _ => matchAuditFilters_empty _ e), hrep,
      takeLast_length, List.length_replicate]
    decide
  · rw [hrep, List.length_replicate]

theorem audit_query_subsequence (parseLine : String → Option AuditEvent)
    (dateParse : String → Option Int) (fileLines : List String)
    (filters : Option AuditFilters) :
    (auditQuery parseLine dateParse fileLines filters).Sublist
      (parsedAuditEvents parseLine fileLines) ∧
    auditQuery parseLine dateParse fileLines none =
      takeLast 500 (parsedAuditEvents parseLine fileLines) ∧
    (∀ L : Int, filters.bind AuditFilters.limit = some L →
      ((auditQuery parseLine dateParse fileLines filters).length : Int) ≤
        min 10000 (max 1 L)) := by
  refine ⟨?_, ?_, ?_⟩
  · exact (takeLast_sublist _ _).trans (List.filter_sublist _)
  · simp only [auditQuery, Option.none_bind, Option.getD_none]
    rw [List.filter_eq_self.2 (fun e _ => matchAuditFilters_empty dateParse e)]
    rfl
  · intro L hL
    simp only [auditQuery, hL, Option.getD_some]
    rw [takeLast_length]
    omega

theorem resolveExposureSelection_missing (table : SessionTable) (id : Option String)
    (ids : Option (List String)) (filter : Option ExposureFilter) :
    ∀ mid ∈ (resolveExposureSelection table id ids filter).missingIds,
      (table.lookup mid).isNone = true := by
  intro mid hmid
  simp only [resolveExposureSelection] at hmid
  split at hmid
  · exact absurd hmid (by simp)
  · split at hmid
    · have := List.of_mem_filter hmid
      simpa using this
    · split at hmid
      · exact absurd hmid (by simp)
      · exact absurd hmid (by simp)

theorem exposure_get_not_found (table : SessionTable) (params : GetParams) :
    (∀ s, params.id = some s → strTrim s = s → s ≠ "" → s ≠ "all" →
      params.ids = none → params.filter = none → params.fields = none →
      table.lookup s = none →
      exposureGet table params = GetResult.legacyNotFound s) ∧
    (∀ items count matchedIds matchedTotal truncated missingIds,
      exposureGet table params =
        GetResult.multi items count matchedIds matchedTotal truncated missingIds →
      ∀ mid ∈ missingIds,
        table.lookup mid = none ∧
        makeExposureGetNotFound mid (params.fields.map normalizeRequestedIds) ∈ items) := by
  constructor
  · intro s hid htrim hne hnall hids hfilter hfields hlookup
    have hexp : normalizeRequestedIds [s] = [s] := by
      simp [normalizeRequestedIds, normalizeRequestedIdsAux, htrim, hne]
    have hnotall : ¬("all" ∈ [s]) := by
      simp only [List.mem_singleton]
      exact fun hc => hnall hc.symm
    have hsel : resolveExposureSelection table params.id params.ids params.filter =
        ⟨true, [], [s]⟩ := by
      simp only [resolveExposureSelection, hid, hids, hfilter, Option.getD_none,
        List.append_nil, hexp]
      rw [if_neg hnotall, if_pos (by simp : ([s] : List String) ≠ [])]
      simp [hlookup]
    simp only [exposureGet, hsel, Bool.not_true, Bool.false_eq_true, if_false]
    rw [if_pos (show ((match params.id with
        | some s => decide (s ≠ "") && decide (s ≠ "all")
        | none => false) && params.ids.isNone && params.filter.isNone &&
          params.fields.isNone) = true by
      rw [hid, hids, hfilter, hfields]
      simp [hne, hnall])]
    rw [hid]
    simp only [hlookup]
  · intro items count matchedIds matchedTotal truncated missingIds heq mid hmid
    simp only [exposureGet] at heq
    by_cases hused :
        (resolveExposureSelection table params.id params.ids params.filter).selectorUsed = true
    · rw [hused] at heq
      simp only [Bool.not_true, Bool.false_eq_true, if_false] at heq
      by_cases hleg : ((match params.id with
          | some s => decide (s ≠ "") && decide (s ≠ "all")
          | none => false) && params.ids.isNone && params.filter.isNone &&
            params.fields.isNone) = true
      · rw [if_pos hleg] at heq
        split at heq
        · split at heq
          · exact GetResult.noConfusion heq
          · exact GetResult.noConfusion heq
        · exact GetResult.noConfusion heq
      · rw [if_neg hleg] at heq
        obtain ⟨hitems, _, _, _, _, hmissing⟩ := GetResult.multi.inj heq
        constructor
        · have := resolveExposureSelection_missing table params.id params.ids params.filter
            mid (by rw [hmissing]; exact hmid)
          exact Option.isNone_iff_eq_none.1 this
        · rw [← hitems]
          refine List.mem_append_right _ ?_
          exact List.mem_map_of_mem _ (by rw [hmissing]; exact hmid)
    · rw [Bool.not_eq_true] at hused
      rw [hused] at heq
      exact absurd heq (by simp)

theorem exposure_get_not_found_witness :
    exposureGet [] ⟨some "x", none, none, none⟩ = GetResult.legacyNotFound "x" :=
  (exposure_get_not_found [] ⟨some "x", none, none, none⟩).1 "x" rfl (by decide)
    (by decide) (by decide) rfl rfl rfl rfl

/-- A successful lookup means the key is present. -/
theorem lookup_some_mem_keys {table : SessionTable} {id : String} {e : SessionEntry}
    (h : table.lookup id = some e) : id ∈ table.map Prod.fst := by
  induction table with
  | nil => simp [List.lookup] at h
  | cons hd tl ih =>
    rw [List.lookup] at h
    by_cases heq : id = hd.1
    · simp [heq]
    · rw [show (id == hd.1) = false from beq_eq_false_iff_ne.2 heq] at h
      exact List.mem_cons_of_mem _ (ih h)

/-- A present key has a successful lookup. -/
theorem mem_keys_lookup_isSome {table : SessionTable} {id : String}
    (h : id ∈ table.map Prod.fst) : (table.lookup id).isSome = true := by
  induction table with
  | nil => simp at h
  | cons hd tl ih =>
    rw [List.lookup]
    by_cases heq : id = hd.1
    · rw [show (id == hd.1) = true from beq_iff_eq.2 heq]
      rfl
    · rw [show (id == hd.1) = false from beq_eq_false_iff_ne.2 heq]
      rcases (by simpa using h : id = hd.1 ∨ id ∈ List.map Prod.fst tl) with h1 | h2
      · exact absurd h1 heq
      · exact ih h2

/-- Deleting a key removes it. -/
theorem lookup_eraseKey_self (table : SessionTable) (id : String) :
    (eraseKey table id).lookup id = none := by
  induction table with
  | nil => rfl
  | cons hd tl ih =>
    unfold eraseKey at ih ⊢
    rw [List.filter_cons]
    by_cases heq : hd.1 = id
    · rw [if_neg (by simp [heq])]
      exact ih
    · rw [if_pos (by simpa using heq), List.lookup]
      rw [show (id == hd.1) = false from beq_eq_false_iff_ne.2 fun hc => heq hc.symm]
      exact ih

/-- Deleting a key leaves other lookups unchanged. -/
theorem lookup_eraseKey_ne (table : SessionTable) {id x : String} (h : x ≠ id) :
    (eraseKey table id).lookup x = table.lookup x := by
  induction table with
  | nil => rfl
  | cons hd tl ih =>
    unfold eraseKey at ih ⊢
    rw [List.filter_cons]
    by_cases heq : hd.1 = id
    · rw [if_neg (by simp [heq])]
      rw [ih, List.lookup,
        show (x == hd.1) = false from beq_eq_false_iff_ne.2 (heq ▸ h)]
    · rw [if_pos (by simpa using heq), List.lookup, List.lookup]
      by_cases hx : x = hd.1
      · rw [show (x == hd.1) = true from beq_iff_eq.2 hx]
      · rw [show (x == hd.1) = false from beq_eq_false_iff_ne.2 hx]
        exact ih

/-- The table after the stop loop: exactly the processed ids are gone. -/
theorem stopLoop_table_lookup (wsExists : String → Bool) (nowTs : String)
    (expired : Bool) :
    ∀ (ids : List String) (table : SessionTable) (x : String),
      (stopLoop wsExists nowTs expired ids table).table.lookup x =
        if x ∈ ids then none else table.lookup x := by
  intro ids
  induction ids with
  | nil => intro table x; simp [stopLoop]
  | cons i rest ih =>
    intro table x
    rw [stopLoop]
    cases hlk : table.lookup i with
    | none =>
      dsimp only
      rw [ih]
      by_cases hx : x ∈ rest
      · simp [hx]
      · by_cases hxi : x = i
        · subst hxi
          simp [hx, hlk]
        · simp [hx, hxi]
    | some e =>
      dsimp only
      rw [ih]
      by_cases hx : x ∈ rest
      · simp [hx]
      · by_cases hxi : x = i
        · subst hxi
          simp [hx, lookup_eraseKey_self]
        · simp [hx, hxi, lookup_eraseKey_ne table hxi]

/-- Every id of the loop that is present when reached — with pairwise
distinct ids, every present id — is reported stopped, and its audit event is
written. -/
theorem stopLoop_present_spec (wsExists : String → Bool) (nowTs : String)
    (expired : Bool) :
    ∀ (ids : List String) (table : SessionTable), ids.Nodup →
      ∀ id ∈ ids, (table.lookup id).isSome = true →
        id ∈ (stopLoop wsExists nowTs expired ids table).stopped ∧
        (∃ ev ∈ (stopLoop wsExists nowTs expired ids table).audit,
          ev.id = some id ∧ ev.ts = nowTs ∧
          ev.event = if expired then "exposure_expired" else "exposure_stopped") := by
  intro ids
  induction ids with
  | nil => intro table _ id hid; simp at hid
  | cons i rest ih =>
    intro table hnodup id hid hsome
    have hrestnodup : rest.Nodup := (List.nodup_cons.1 hnodup).2
    have hinotin : i ∉ rest := (List.nodup_cons.1 hnodup).1
    rw [stopLoop]
    rcases List.mem_cons.1 hid with hidi | hidrest
    · subst hidi
      cases hlk : table.lookup id with
      | none => rw [hlk] at hsome; simp at hsome
      | some e =>
        dsimp only
        constructor
        · exact List.mem_cons_self _ _
        · exact ⟨_, List.mem_cons_self _ _, rfl, rfl, rfl⟩
    · have hne : id ≠ i := fun hc => hinotin (hc ▸ hidrest)
      cases hlk : table.lookup i with
      | none =>
        dsimp only
        exact ih table hrestnodup id hidrest hsome
      | some e =>
        dsimp only
        have hsome' : ((eraseKey table i).lookup id).isSome = true := by
          rw [lookup_eraseKey_ne table hne]
          exact hsome
        obtain ⟨h1, ev, hev, hprops⟩ := ih (eraseKey table i) hrestnodup id hidrest hsome'
        exact ⟨List.mem_cons_of_mem _ h1, ev, List.mem_cons_of_mem _ hev, hprops⟩

/-- `cleaned` of the loop is exactly the set of existing workspace
directories of the processed sessions. -/
theorem stopLoop_cleaned_iff (wsExists : String → Bool) (nowTs : String)
    (expired : Bool) :
    ∀ (ids : List String) (table : SessionTable), ids.Nodup →
      ∀ d, d ∈ (stopLoop wsExists nowTs expired ids table).cleaned ↔
        ∃ id ∈ ids, ∃ e, table.lookup id = some e ∧
          e.workspaceDir = some d ∧ wsExists d = true := by
  intro ids
  induction ids with
  | nil => intro table _ d; simp [stopLoop]
  | cons i rest ih =>
    intro table hnodup d
    have hrestnodup : rest.Nodup := (List.nodup_cons.1 hnodup).2
    have hinotin : i ∉ rest := (List.nodup_cons.1 hnodup).1
    rw [stopLoop]
    cases hlk : table.lookup i with
    | none =>
      dsimp only
      rw [ih table hrestnodup d]
      constructor
      · rintro ⟨id, hmem, e, he, hrest⟩
        exact ⟨id, List.mem_cons_of_mem _ hmem, e, he, hrest⟩
      · rintro ⟨id, hmem, e, he, hrest⟩
        rcases List.mem_cons.1 hmem with hidi | hidrest
        · rw [hidi, hlk] at he; exact absurd he (by simp)
        · exact ⟨id, hidrest, e, he, hrest⟩
    | some entry =>
      dsimp only
      rw [List.mem_append, ih (eraseKey table i) hrestnodup d]
      constructor
      · rintro (hhere | ⟨id, hmem, e, he, hwd, hex⟩)
        · refine ⟨i, List.mem_cons_self _ _, entry, hlk, ?_⟩
          cases hwd : entry.workspaceDir with
          | none => rw [hwd] at hhere; simp at hhere
          | some w =>
            rw [hwd] at hhere
            change d ∈ (if wsExists w = true then [w] else []) at hhere
            by_cases hx : wsExists w = true
            · rw [if_pos hx] at hhere
              rcases List.mem_singleton.1 hhere with rfl
              exact ⟨rfl, hx⟩
            · rw [if_neg hx] at hhere
              simp at hhere
        · have hne : id ≠ i := fun hc => hinotin (hc ▸ hmem)
          rw [lookup_eraseKey_ne table hne] at he
          exact ⟨id, List.mem_cons_of_mem _ hmem, e, he, hwd, hex⟩
      · rintro ⟨id, hmem, e, he, hwd, hex⟩
        rcases List.mem_cons.1 hmem with hidi | hidrest
        · subst hidi
          rw [hlk] at he
          obtain rfl : entry = e := by injection he
          left
          rw [hwd]
          change d ∈ (if wsExists d = true then [d] else [])
          rw [if_pos hex]
          exact List.mem_singleton.2 rfl
        · have hne : id ≠ i := fun hc => hinotin (hc ▸ hidrest)
          right
          refine ⟨id, hidrest, e, ?_, hwd, hex⟩
          rw [lookup_eraseKey_ne table hne]
          exact he

/-- Members of a normalized id list are trimmed, nonempty, and the list has
no duplicates. -/
theorem normalizeRequestedIdsAux_sublemma :
    ∀ (l : List String) (seen : List String),
      (normalizeRequestedIdsAux seen l).Nodup ∧
      ∀ x ∈ normalizeRequestedIdsAux seen l, x ∉ seen ∧ x ≠ "" ∧ ∃ y ∈ l, x = strTrim y := by
  intro l
  induction l with
  | nil => intro seen; simp [normalizeRequestedIdsAux]
  | cons item rest ih =>
    intro seen
    rw [normalizeRequestedIdsAux]
    by_cases hskip : strTrim item = "" ∨ strTrim item ∈ seen
    · rw [if_pos hskip]
      obtain ⟨hnodup, hmem⟩ := ih seen
      refine ⟨hnodup, fun x hx => ?_⟩
      obtain ⟨hns, hne, y, hy, hxy⟩ := hmem x hx
      exact ⟨hns, hne, y, List.mem_cons_of_mem _ hy, hxy⟩
    · rw [if_neg hskip]
      push_neg at hskip
      obtain ⟨hnodup, hmem⟩ := ih (strTrim item :: seen)
      constructor
      · rw [List.nodup_cons]
        refine ⟨fun hc => ?_, hnodup⟩
        exact (hmem _ hc).1 (List.mem_cons_self _ _)
      · intro x hx
        rcases List.mem_cons.1 hx with hxi | hxrest
        · subst hxi
          exact ⟨fun hc => hskip.2 hc, hskip.1, item, List.mem_cons_self _ _, rfl⟩
        · obtain ⟨hns, hne, y, hy, hxy⟩ := hmem x hxrest
          exact ⟨fun hc => hns (List.mem_cons_of_mem _ hc), hne, y,
            List.mem_cons_of_mem _ hy, hxy⟩

/-- A list of pairwise-distinct canonical ids is a fixed point of
`normalizeRequestedIds`. -/
theorem normalizeRequestedIds_fixed :
    ∀ (l : List String) (seen : List String), l.Nodup →
      (∀ x ∈ l, strTrim x = x ∧ x ≠ "") → (∀ x ∈ l, x ∉ seen) →
      normalizeRequestedIdsAux seen l = l := by
  intro l
  induction l with
  | nil => intro seen _ _ _; rfl
  | cons item rest ih =>
    intro seen hnodup hcanon hdisj
    rw [normalizeRequestedIdsAux]
    obtain ⟨htrim, hne⟩ := hcanon item (List.mem_cons_self _ _)
    rw [htrim]
    rw [if_neg (by
      push_neg
      exact ⟨hne, hdisj item (List.mem_cons_self _ _)⟩)]
    congr 1
    refine ih _ (List.nodup_cons.1 hnodup).2
      (fun x hx => hcanon x (List.mem_cons_of_mem _ hx)) ?_
    intro x hx
    rw [List.mem_cons]
    push_neg
    refine ⟨fun hc => (List.nodup_cons.1 hnodup).1 (hc ▸ hx), ?_⟩
    exact hdisj x (List.mem_cons_of_mem _ hx)

/-- C3: `stopExposure` accepts a single id, a list, or the sentinel `all`:
every requested id present in the table goes through the terminal transition
(entry removed, workspace collected into `cleaned`, audit event written);
every absent id yields `{id, error:"not_found"}` in `failed`; `cleaned` is
exactly the existing workspace paths of the stopped sessions; and a second
stop of the same id reports `not_found`. -/
theorem stop_exposure_spec (table : SessionTable) (wsExists : String → Bool)
    (nowTs : String) (idOrIds : List String) (expired : Bool)
    (hcanon : ∀ k ∈ table.map Prod.fst, strTrim k = k ∧ k ≠ "" ∧ k ≠ "all")
    (hkeys : (table.map Prod.fst).Nodup) :
    ("all" ∉ normalizeRequestedIds idOrIds →
      (∀ id ∈ normalizeRequestedIds idOrIds, (table.lookup id).isSome = true →
        id ∈ (stopExposure table wsExists nowTs idOrIds expired).stopped ∧
        (stopExposure table wsExists nowTs idOrIds expired).table.lookup id = none ∧
        (∃ ev ∈ (stopExposure table wsExists nowTs idOrIds expired).audit,
          ev.id = some id ∧ ev.ts = nowTs ∧
          ev.event = if expired then "exposure_expired" else "exposure_stopped") ∧
        stopExposure (stopExposure table wsExists nowTs idOrIds expired).table
            wsExists nowTs [id] expired =
          ⟨[], [(id, "not_found")], [], [],
            (stopExposure table wsExists nowTs idOrIds expired).table⟩) ∧
      (∀ id ∈ normalizeRequestedIds idOrIds, table.lookup id = none →
        (id, "not_found") ∈ (stopExposure table wsExists nowTs idOrIds expired).failed) ∧
      (∀ d, d ∈ (stopExposure table wsExists nowTs idOrIds expired).cleaned ↔
        ∃ id ∈ normalizeRequestedIds idOrIds, ∃ e, table.lookup id = some e ∧
          e.workspaceDir = some d ∧ wsExists d = true)) ∧
    ("all" ∈ normalizeRequestedIds idOrIds → table ≠ [] →
      ∀ id ∈ table.map Prod.fst,
        id ∈ (stopExposure table wsExists nowTs idOrIds expired).stopped ∧
        (stopExposure table wsExists nowTs idOrIds expired).table.lookup id = none) := by
  have hreqprops := normalizeRequestedIdsAux_sublemma idOrIds []
  have hreqnodup : (normalizeRequestedIds idOrIds).Nodup := hreqprops.1
  -- canonicity of ids that are present in the table
  have hpresent_canon : ∀ id, (table.lookup id).isSome = true →
      strTrim id = id ∧ id ≠ "" ∧ id ≠ "all" := by
    intro id hsome
    obtain ⟨e, he⟩ := Option.isSome_iff_exists.1 hsome
    exact hcanon id (lookup_some_mem_keys he)
  -- the second stop of an id that is no longer in a table
  have hsecond : ∀ (t : SessionTable) (id : String),
      strTrim id = id → id ≠ "" → id ≠ "all" → t.lookup id = none →
      stopExposure t wsExists nowTs [id] expired = ⟨[], [(id, "not_found")], [], [], t⟩ := by
    intro t id htrim hne hnall hlk
    have hfix1 : normalizeRequestedIds [id] = [id] :=
      normalizeRequestedIds_fixed [id] [] (List.nodup_singleton id)
        (fun x hx => by rcases List.mem_singleton.1 hx with rfl; exact ⟨htrim, hne⟩)
        (fun x _ => List.not_mem_nil x)
    simp only [stopExposure]
    rw [hfix1]
    rw [if_neg (by simp)]
    rw [if_neg (by
      intro hc
      exact hnall (List.mem_singleton.1 hc).symm)]
    have hfilterSome : ([id].filter fun i => (t.lookup i).isSome) = [] := by
      rw [List.filter_cons]
      rw [if_neg (by simp [hlk])]
      rfl
    have hfilterNone : ([id].filter fun i => (t.lookup i).isNone) = [id] := by
      rw [List.filter_cons]
      rw [if_pos (by simp [hlk])]
      rfl
    rw [hfilterSome, hfilterNone]
    rfl
  constructor
  · -- the explicit-ids case
    intro hnall
    by_cases hreqnil : normalizeRequestedIds idOrIds = []
    · rw [hreqnil]
      refine ⟨fun id hid => absurd hid (List.not_mem_nil id),
        fun id hid => absurd hid (List.not_mem_nil id), fun d => ?_⟩
      simp only [stopExposure]
      rw [hreqnil, if_pos rfl]
      simp
    · -- reduce stopExposure to the loop
      have hpresnodup : ((normalizeRequestedIds idOrIds).filter
          fun id => (table.lookup id).isSome).Nodup := hreqnodup.filter _
      have hfix : normalizeRequestedIds ((normalizeRequestedIds idOrIds).filter
          fun id => (table.lookup id).isSome) =
          (normalizeRequestedIds idOrIds).filter fun id => (table.lookup id).isSome := by
        refine normalizeRequestedIds_fixed _ [] hpresnodup (fun x hx => ?_)
          (fun x _ => List.not_mem_nil x)
        have := (List.mem_filter.1 hx).2
        obtain ⟨h1, h2, _⟩ := hpresent_canon x this
        exact ⟨h1, h2⟩
      have hred : stopExposure table wsExists nowTs idOrIds expired =
          (if ((normalizeRequestedIds idOrIds).filter
              fun id => (table.lookup id).isSome) = [] then
            (⟨[], ((normalizeRequestedIds idOrIds).filter
                fun id => (table.lookup id).isNone).map fun id => (id, "not_found"),
              [], [], table⟩ : StopOutcome)
          else
            { stopLoop wsExists nowTs expired
                ((normalizeRequestedIds idOrIds).filter
                  fun id => (table.lookup id).isSome) table with
              failed := (((normalizeRequestedIds idOrIds).filter
                  fun id => (table.lookup id).isNone).map fun id => (id, "not_found")) ++
                (stopLoop wsExists nowTs expired
                  ((normalizeRequestedIds idOrIds).filter
                    fun id => (table.lookup id).isSome) table).failed }) := by
        simp only [stopExposure]
        rw [if_neg hreqnil, if_neg hnall, hfix]
      refine ⟨?_, ?_, ?_⟩
      · -- present ids: terminal transition + second stop
        intro id hid hsome
        have hidpres : id ∈ (normalizeRequestedIds idOrIds).filter
            fun i => (table.lookup i).isSome := List.mem_filter.2 ⟨hid, hsome⟩
        have hpresne : ((normalizeRequestedIds idOrIds).filter
            fun i => (table.lookup i).isSome) ≠ [] := by
          intro hc
          rw [hc] at hidpres
          exact List.not_mem_nil id hidpres
        rw [hred, if_neg hpresne]
        obtain ⟨hstopped, hev⟩ := stopLoop_present_spec wsExists nowTs expired _ table
          hpresnodup id hidpres hsome
        have htable : (stopLoop wsExists nowTs expired
            ((normalizeRequestedIds idOrIds).filter
              fun i => (table.lookup i).isSome) table).table.lookup id = none := by
          rw [stopLoop_table_lookup, if_pos hidpres]
        refine ⟨hstopped, htable, hev, ?_⟩
        obtain ⟨h1, h2, h3⟩ := hpresent_canon id hsome
        exact hsecond _ id h1 h2 h3 htable
      · -- absent ids land in failed
        intro id hid hnone
        have hidabs : id ∈ (normalizeRequestedIds idOrIds).filter
            fun i => (table.lookup i).isNone :=
          List.mem_filter.2 ⟨hid, by simp [hnone]⟩
        rw [hred]
        by_cases hpres : ((normalizeRequestedIds idOrIds).filter
            fun i => (table.lookup i).isSome) = []
        · rw [if_pos hpres]
          exact List.mem_map_of_mem _ hidabs
        · rw [if_neg hpres]
          exact List.mem_append_left _ (List.mem_map_of_mem _ hidabs)
      · -- cleaned is exactly the removed workspace paths
        intro d
        rw [hred]
        by_cases hpres : ((normalizeRequestedIds idOrIds).filter
            fun i => (table.lookup i).isSome) = []
        · rw [if_pos hpres]
          constructor
          · intro hc
            exact absurd hc (List.not_mem_nil d)
          · rintro ⟨id, hid, e, he, _⟩
            have : id ∈ (normalizeRequestedIds idOrIds).filter
                fun i => (table.lookup i).isSome :=
              List.mem_filter.2 ⟨hid, by simp [he]⟩
            rw [hpres] at this
            exact absurd this (List.not_mem_nil id)
        · rw [if_neg hpres]
          have := stopLoop_cleaned_iff wsExists nowTs expired _ table hpresnodup d
          refine this.trans ?_
          constructor
          · rintro ⟨id, hid, e, he, hwd, hex⟩
            exact ⟨id, (List.mem_filter.1 hid).1, e, he, hwd, hex⟩
          · rintro ⟨id, hid, e, he, hwd, hex⟩
            exact ⟨id, List.mem_filter.2 ⟨hid, by simp [he]⟩, e, he, hwd, hex⟩
  · -- the `all` sentinel
    intro hall htne
    have hkeysfix : normalizeRequestedIds (table.map Prod.fst) = table.map Prod.fst :=
      normalizeRequestedIds_fixed _ [] hkeys
        (fun x hx => ⟨(hcanon x hx).1, (hcanon x hx).2.1⟩)
        (fun x _ => List.not_mem_nil x)
    have hmapne : table.map Prod.fst ≠ [] := by
      intro hc
      exact htne (List.map_eq_nil_iff.1 hc)
    have hreqne : normalizeRequestedIds idOrIds ≠ [] := by
      intro hc
      rw [hc] at hall
      exact List.not_mem_nil _ hall
    have hred2 : stopExposure table wsExists nowTs idOrIds expired =
        stopLoop wsExists nowTs expired (table.map Prod.fst) table := by
      simp only [stopExposure]
      rw [if_neg hreqne, if_pos hall, if_neg hmapne, hkeysfix, if_neg hmapne]
    intro id hid
    have hsome := mem_keys_lookup_isSome hid
    obtain ⟨hstopped, _⟩ := stopLoop_present_spec wsExists nowTs expired _ table
      hkeys id hid hsome
    have htable : (stopLoop wsExists nowTs expired (table.map Prod.fst) table).table.lookup
        id = none := by
      rw [stopLoop_table_lookup, if_pos hid]
    rw [hred2]
    exact ⟨hstopped, htable⟩


/-- Witness for C3: stopping `["a1", "zz"]` on a one-session table stops and
removes `a1`. -/
theorem stop_exposure_spec_witness :
    "a1" ∈ (stopExposure [("a1", ⟨"files", "running", some "w1"⟩)] (fun _ => true) "ts"
      ["a1", "zz"] false).stopped :=
  (((stop_exposure_spec [("a1", ⟨"files", "running", some "w1"⟩)] (fun _ => true) "ts"
      ["a1", "zz"] false (by decide) (by decide)).1 (by decide)).1 "a1" (by decide)
      (by decide)).1


/-- Trivial render oracles for concrete evaluations. -/
def trivialOracles : RenderOracles := ⟨fun _ => none, fun _ _ => [], fun s => s⟩

/-- A filesystem where every path is an existing two-byte file. -/
def twoByteFs : FileSystem := ⟨fun _ => true, fun _ => true, fun _ => [104, 105]⟩

/-- An empty filesystem. -/
def emptyFs : FileSystem := ⟨fun _ => false, fun _ => false, fun _ => []⟩

/-- C5 counterexample: a `POST` to the root path of a normal-mode file origin
is answered with the explorer page (status 200), not 405 — the method gate
only guards file responses. -/
theorem method_gate_counterexample :
    (handleFileRequest ⟨false, 60000, 240⟩ trivialOracles emptyFs
      ⟨["tmp", "ws"], FileShareMode.normal, FilePresentationMode.download, none,
        ["a.txt", "b.txt"], false, []⟩
      [] ⟨0, 0, 0, none⟩ ⟨some "POST", "/", none, "ip"⟩ 0).response.status = 200 ∧
    strToUpper ((some "POST").getD "GET") ≠ "GET" ∧
    strToUpper ((some "POST").getD "GET") ≠ "HEAD" := by
  decide

/-- C5 (amended): requests that reach a file response (`sendFileResponse`)
with a method other than `GET`/`HEAD` are answered
`405 {error:"method_not_allowed"}` with the stats untouched; the root
explorer page and the error paths answer independently of the method. -/
theorem send_file_method_gate (orc : RenderOracles) (fs : FileSystem)
    (a : SendFileArgs) (stats : Stats)
    (hg : strToUpper (a.methodRaw.getD "GET") ≠ "GET")
    (hh : strToUpper (a.methodRaw.getD "GET") ≠ "HEAD") :
    sendFileResponse orc fs a stats = (jsonError 405 "method_not_allowed", stats) := by
  simp only [sendFileResponse]
  rw [if_pos ⟨hg, hh⟩]

/-- Witness for the amended C5: a concrete `POST` file request gets 405. -/
theorem send_file_method_gate_witness :
    sendFileResponse trivialOracles twoByteFs
      ⟨some "POST", none, ["tmp", "ws", "a.txt"], none,
        FilePresentationMode.download, true⟩ ⟨0, 0, 0, none⟩ =
      (jsonError 405 "method_not_allowed", ⟨0, 0, 0, none⟩) :=
  send_file_method_gate trivialOracles twoByteFs _ _ (by decide) (by decide)

/-- C4 counterexample: a markdown preview request carrying the valid range
header `bytes=0-0` on a two-byte `a.md` is answered 200 (full preview), not
206 — the range logic is bypassed by the markdown preview branch. -/
theorem range_claim_counterexample :
    (sendFileResponse trivialOracles twoByteFs
      ⟨some "GET", some "bytes=0-0", ["w", "a.md"], none,
        FilePresentationMode.preview, true⟩ ⟨0, 0, 0, none⟩).1.status = 200 ∧
    parseRangeHeader "bytes=0-0" = some (some 0, some 0) ∧
    (twoByteFs.contentAt ["w", "a.md"]).length = 2 := by
  decide

/-- C4 (amended): for every file request carrying a `Range` header that is
not served as a markdown preview: an unparsable header yields
`416 {error:"invalid_range"}`; on a parsed `bytes=a-b`, `a` defaults to 0 and
`b` to `size-1`; an out-of-bounds range (`b < a` or `b ≥ size`) yields 416;
a valid range yields 206 with the `content-range` header and (for `GET`)
a body of exactly the bytes `a..b`. -/
theorem range_request_spec (orc : RenderOracles) (fs : FileSystem) (a : SendFileArgs)
    (stats : Stats)
    (hmethod : strToUpper (a.methodRaw.getD "GET") = "GET" ∨
      strToUpper (a.methodRaw.getD "GET") = "HEAD")
    (hmd : shouldRenderMarkdownPreview a.filePath a.presentation = false)
    (range : String) (hrange : ensureString a.rangeHeader = some range) :
    (parseRangeHeader range = none →
      sendFileResponse orc fs a stats = (jsonError 416 "invalid_range", stats)) ∧
    (∀ g1 g2, parseRangeHeader range = some (g1, g2) →
      (rangeEnd g2 (fs.contentAt a.filePath).length < rangeStart g1 ∨
       ((fs.contentAt a.filePath).length : Int) ≤
          rangeEnd g2 (fs.contentAt a.filePath).length →
        sendFileResponse orc fs a stats = (jsonError 416 "invalid_range", stats)) ∧
      (rangeStart g1 ≤ rangeEnd g2 (fs.contentAt a.filePath).length →
       rangeEnd g2 (fs.contentAt a.filePath).length <
          ((fs.contentAt a.filePath).length : Int) →
        (sendFileResponse orc fs a stats).1.status = 206 ∧
        ("content-range", "bytes " ++ toString (rangeStart g1) ++ "-" ++
          toString (rangeEnd g2 (fs.contentAt a.filePath).length) ++ "/" ++
          toString (fs.contentAt a.filePath).length) ∈
          (sendFileResponse orc fs a stats).1.headers ∧
        (strToUpper (a.methodRaw.getD "GET") = "GET" →
          (sendFileResponse orc fs a stats).1.body =
            Body.bytes (((fs.contentAt a.filePath).drop (rangeStart g1).toNat).take
              (rangeEnd g2 (fs.contentAt a.filePath).length - rangeStart g1 + 1).toNat)))) := by
  have hnogate : ¬(strToUpper (a.methodRaw.getD "GET") ≠ "GET" ∧
      strToUpper (a.methodRaw.getD "GET") ≠ "HEAD") := by
    rcases hmethod with h | h
    · exact fun hc => hc.1 h
    · exact fun hc => hc.2 h
  constructor
  · intro hparse
    simp only [sendFileResponse]
    rw [if_neg hnogate, if_neg (by rw [hmd]; exact Bool.false_ne_true)]
    simp only [hrange, hparse]
  · intro g1 g2 hparse
    constructor
    · intro hbad
      simp only [sendFileResponse]
      rw [if_neg hnogate, if_neg (by rw [hmd]; exact Bool.false_ne_true)]
      simp only [hrange, hparse]
      rw [if_pos hbad]
    · intro hle hlt
      have hgood : ¬(rangeEnd g2 (fs.contentAt a.filePath).length < rangeStart g1 ∨
          ((fs.contentAt a.filePath).length : Int) ≤
            rangeEnd g2 (fs.contentAt a.filePath).length) := by
        push_neg
        exact ⟨hle, hlt⟩
      refine ⟨?_, ?_, ?_⟩
      · simp only [sendFileResponse]
        rw [if_neg hnogate, if_neg (by rw [hmd]; exact Bool.false_ne_true)]
        simp only [hrange, hparse]
        rw [if_neg hgood]
        split <;> rfl
      · simp only [sendFileResponse]
        rw [if_neg hnogate, if_neg (by rw [hmd]; exact Bool.false_ne_true)]
        simp only [hrange, hparse]
        rw [if_neg hgood]
        split
        · exact List.mem_append_right _ (by simp)
        · exact List.mem_append_right _ (by simp)
      · intro hget
        simp only [sendFileResponse]
        rw [if_neg hnogate, if_neg (by rw [hmd]; exact Bool.false_ne_true)]
        simp only [hrange, hparse]
        rw [if_neg hgood]
        rw [if_neg (by rw [hget]; decide)]

/-- Witness for the amended C4: `GET` with `bytes=0-1` on a two-byte file is
a 206 whose body is both bytes. -/
theorem range_request_spec_witness :
    (sendFileResponse trivialOracles twoByteFs
      ⟨some "GET", some "bytes=0-1", ["w", "a.txt"], none,
        FilePresentationMode.download, true⟩ ⟨0, 0, 0, none⟩).1.status = 206 :=
  ((((range_request_spec trivialOracles twoByteFs
      ⟨some "GET", some "bytes=0-1", ["w", "a.txt"], none,
        FilePresentationMode.download, true⟩ ⟨0, 0, 0, none⟩
      (Or.inl (by decide)) (by decide) "bytes=0-1" (by decide)).2
    (some 0) (some 1) (by decide)).2 (by decide) (by decide)).1)

/-- The common segment prefix of `l` and `l ++ m` is all of `l`. -/
theorem commonPrefixLen_append_self : ∀ (l m : List String),
    commonPrefixLen l (l ++ m) = l.length
  | [], m => by cases m <;> simp [commonPrefixLen]
  | a :: as, m => by
    unfold commonPrefixLen
    simp [commonPrefixLen_append_self as m]

/-- Appending plain, non-`".."`-prefixed segments under a normalized base
stays inside the base. -/
theorem isSubPath_of_append_plain {wd : List String} (hwd : wd.all plainSeg = true)
    {segs : List String}
    (hsegs : ∀ s ∈ segs, plainSeg s = true ∧ strStartsWith s ".." = false) :
    isSubPath (joinSegs wd segs) wd = true := by
  have hsegsall : segs.all plainSeg = true :=
    List.all_eq_true.2 fun s hs => (hsegs s hs).1
  have hall : (wd ++ segs).all plainSeg = true := by
    rw [List.all_append, hwd, hsegsall]
    rfl
  have hjoin : joinSegs wd segs = wd ++ segs := by
    unfold joinSegs
    exact normSegs_of_plain hall
  rw [isSubPath, hjoin, normSegs_of_plain hwd, normSegs_of_plain hall]
  unfold relativeSegs
  rw [commonPrefixLen_append_self, Nat.sub_self, List.replicate_zero, List.nil_append,
    List.drop_left]
  cases hs : segs with
  | nil => rfl
  | cons s rest =>
    have hdd := (hsegs s (hs ▸ List.mem_cons_self s rest)).2
    simp [relStartsWithDotDot, hdd]

/-- C1: the static file origin never serves a file outside `workspaceDir`:
for every non-root request, any file handed to `sendFileResponse` has the
workspace as a segment prefix, and every decoded path whose join with
`workspaceDir` escapes it (by `isSubPath`) is answered
`404 {error:"not_found"}` with nothing served. -/
theorem path_containment (policy : RateLimitPolicy) (orc : RenderOracles)
    (fs : FileSystem) (p : FileServerParams) (limiter : LimiterMap) (stats0 : Stats)
    (req : FileRequest) (now : Int)
    (hwd : p.workspaceDir.all plainSeg = true)
    (hroot : req.path ≠ "/")
    (hallowed : (rateLimiterAllow policy limiter req.clientIp now).1 = true) :
    (∀ t, (handleFileRequest policy orc fs p limiter stats0 req now).servedFile = some t →
      p.workspaceDir <+: t) ∧
    (isSubPath (joinSegs p.workspaceDir (splitSlash (stripLeadingSlashes req.path)))
        p.workspaceDir = false →
      (handleFileRequest policy orc fs p limiter stats0 req now).response =
        jsonError 404 "not_found" ∧
      (handleFileRequest policy orc fs p limiter stats0 req now).servedFile = none) := by
  simp only [handleFileRequest]
  rw [if_neg (show ¬((!(rateLimiterAllow policy limiter req.clientIp now).1) = true) by
    rw [hallowed]; decide)]
  rw [if_neg hroot]
  by_cases hzip : p.mode = FileShareMode.zip
  · rw [if_pos hzip]
    by_cases hdl : req.path ≠ "/download.zip" ∨ ¬p.hasZipBundle = true
    · rw [if_pos hdl]
      exact ⟨fun t ht => Option.noConfusion ht, fun _ => ⟨rfl, rfl⟩⟩
    · rw [if_neg hdl]
      push_neg at hdl
      have hzp : zipBundlePath p.workspaceDir = p.workspaceDir ++ ["_cfshare_bundle.zip"] := by
        unfold zipBundlePath joinSegs
        refine normSegs_of_plain ?_
        rw [List.all_append, hwd]
        rfl
      constructor
      · intro t ht
        obtain rfl : zipBundlePath p.workspaceDir = t := by injection ht
        rw [hzp]
        exact List.prefix_append _ _
      · intro habs
        have htrue : isSubPath (joinSegs p.workspaceDir
            (splitSlash (stripLeadingSlashes req.path))) p.workspaceDir = true := by
          rw [hdl.1]
          exact isSubPath_of_append_plain hwd (by decide)
        exact absurd (htrue.symm.trans habs) (by decide)
  · rw [if_neg hzip]
    by_cases h404 : ¬isSubPath (joinSegs p.workspaceDir
        (splitSlash (stripLeadingSlashes req.path))) p.workspaceDir = true ∨
      ¬fs.existsAt (joinSegs p.workspaceDir
        (splitSlash (stripLeadingSlashes req.path))) = true
    · rw [if_pos h404]
      exact ⟨fun t ht => Option.noConfusion ht, fun _ => ⟨rfl, rfl⟩⟩
    · rw [if_neg h404]
      push_neg at h404
      by_cases hfile : ¬fs.isFileAt (joinSegs p.workspaceDir
          (splitSlash (stripLeadingSlashes req.path))) = true
      · rw [if_pos hfile]
        refine ⟨fun t ht => Option.noConfusion ht, fun habs => ?_⟩
        exact absurd (h404.1.symm.trans habs) (by decide)
      · rw [if_neg hfile]
        constructor
        · intro t ht
          obtain rfl : joinSegs p.workspaceDir
              (splitSlash (stripLeadingSlashes req.path)) = t := by injection ht
          have hpre := isSubPath_true_imp_prefix h404.1
          rw [normSegs_of_plain hwd] at hpre
          have hidem : normSegs (joinSegs p.workspaceDir
              (splitSlash (stripLeadingSlashes req.path))) =
              joinSegs p.workspaceDir (splitSlash (stripLeadingSlashes req.path)) :=
            normSegs_idem _
          rw [hidem] at hpre
          exact hpre
        · intro habs
          exact absurd (h404.1.symm.trans habs) (by decide)

/-- Witness for C1: a traversal path on a live origin is answered 404 and
serves nothing. -/
theorem path_containment_witness :
    (handleFileRequest ⟨false, 60000, 240⟩ trivialOracles emptyFs
      ⟨["tmp", "ws"], FileShareMode.normal, FilePresentationMode.download, none,
        ["a.txt"], false, []⟩
      [] ⟨0, 0, 0, none⟩ ⟨some "GET", "/../etc/passwd", none, "ip"⟩ 0).response =
      jsonError 404 "not_found" :=
  ((path_containment ⟨false, 60000, 240⟩ trivialOracles emptyFs
      ⟨["tmp", "ws"], FileShareMode.normal, FilePresentationMode.download, none,
        ["a.txt"], false, []⟩
      [] ⟨0, 0, 0, none⟩ ⟨some "GET", "/../etc/passwd", none, "ip"⟩ 0
      (by decide) (by decide) (by decide)).2 (by decide)).1

/-- `sendFileResponse` changes `downloads` by at most the `countAsDownload`
increment, and never decreases it. -/
theorem sendFileResponse_downloads (orc : RenderOracles) (fs : FileSystem)
    (a : SendFileArgs) (stats : Stats) :
    (sendFileResponse orc fs a stats).2.downloads = stats.downloads ∨
    (sendFileResponse orc fs a stats).2.downloads =
      stats.downloads + (if a.countAsDownload then 1 else 0) := by
  simp only [sendFileResponse]
  repeat' split
  all_goals simp

/-- One handler run takes `downloads` up by at most one, and whenever it
raises it, the stop decision is exactly `checkMaxDownloads` on the new
stats. -/
theorem handleFileRequest_downloads (policy : RateLimitPolicy) (orc : RenderOracles)
    (fs : FileSystem) (p : FileServerParams) (limiter : LimiterMap) (stats0 : Stats)
    (req : FileRequest) (now : Int) :
    stats0.downloads ≤
      (handleFileRequest policy orc fs p limiter stats0 req now).stats.downloads ∧
    (handleFileRequest policy orc fs p limiter stats0 req now).stats.downloads ≤
      stats0.downloads + 1 ∧
    (stats0.downloads <
        (handleFileRequest policy orc fs p limiter stats0 req now).stats.downloads →
      (handleFileRequest policy orc fs p limiter stats0 req now).stopReason =
        checkMaxDownloadsReason p.maxDownloads
          (handleFileRequest policy orc fs p limiter stats0 req now).stats) := by
  simp only [handleFileRequest]
  repeat' split
  all_goals dsimp only
  all_goals
    first
    | exact ⟨le_refl _, by omega, fun hlt => absurd hlt (lt_irrefl _)⟩
    | (refine ⟨?_, ?_, fun _ => rfl⟩ <;>
        rcases sendFileResponse_downloads orc fs _ _ with h | h <;>
        rw [h] <;> simp)


/-- The stats of `applyRequest` are the handler's stats. -/
theorem applyRequest_stats (policy : RateLimitPolicy) (orc : RenderOracles)
    (fs : FileSystem) (p : FileServerParams) (w : SessionWorld) (req : FileRequest)
    (now : Int) :
    (applyRequest policy orc fs p w req now).stats =
      (handleFileRequest policy orc fs p w.limiter w.stats req now).stats := by
  simp only [applyRequest]
  cases (handleFileRequest policy orc fs p w.limiter w.stats req now).stopReason <;> rfl

/-- C2: `stats.downloads` of a files session is monotone along its events,
and with `maxDownloads = m ≥ 1` set: every reachable state has at most
`m + 1` downloads (in fact at most `m`), and any event that takes the count
to `m` or beyond leaves the session terminal, stopped with reason
`max_downloads_reached`. -/
theorem downloads_quota (policy : RateLimitPolicy) (orc : RenderOracles)
    (fs : FileSystem) (p : FileServerParams) (m : Int) (hm : p.maxDownloads = some m)
    (hpos : 1 ≤ m) (w0 : SessionWorld) (h0d : w0.stats.downloads = 0)
    (h0t : w0.terminal = false) (w : SessionWorld)
    (hw : ReachableWorld policy orc fs p w0 w) :
    ((w.stats.downloads : Int) ≤ m + 1) ∧
    (∀ w', FsStep policy orc fs p w w' →
      w.stats.downloads ≤ w'.stats.downloads ∧
      (m ≤ (w'.stats.downloads : Int) →
        w'.terminal = true ∧ w'.stopReason = some "max_downloads_reached")) := by
  have hinv : ∀ v, ReachableWorld policy orc fs p w0 v →
      (v.terminal = false → (v.stats.downloads : Int) < m) ∧
      (v.stats.downloads : Int) ≤ m := by
    intro v hv
    induction hv with
    | refl => exact ⟨fun _ => by omega, by omega⟩
    | tail hsteps hstep ih =>
      rename_i u v'
      cases hstep with
      | request req now hrun =>
        obtain ⟨hle, hle1, himp⟩ :=
          handleFileRequest_downloads policy orc fs p u.limiter u.stats req now
        have hblt : (u.stats.downloads : Int) < m := ih.1 hrun
        simp only [applyRequest]
        cases hsr :
            (handleFileRequest policy orc fs p u.limiter u.stats req now).stopReason with
        | some reason =>
          dsimp only
          refine ⟨fun hc => absurd hc (by decide), by omega⟩
        | none =>
          dsimp only
          refine ⟨fun _ => ?_, by omega⟩
          by_contra hge
          push_neg at hge
          have hgt : u.stats.downloads <
              (handleFileRequest policy orc fs p u.limiter u.stats req now).stats.downloads := by
            omega
          have hchk := himp hgt
          rw [hsr] at hchk
          rw [checkMaxDownloadsReason.eq_def, hm] at hchk
          dsimp only at hchk
          rw [if_pos (by omega)] at hchk
          exact Option.noConfusion hchk
      | stop reason hrun =>
        have hblt : (u.stats.downloads : Int) < m := ih.1 hrun
        dsimp only
        exact ⟨fun hc => absurd hc (by decide), by omega⟩
  refine ⟨by have := (hinv w hw).2; omega, ?_⟩
  intro w' hstep
  cases hstep with
  | request req now hrun =>
    obtain ⟨hle, hle1, himp⟩ :=
      handleFileRequest_downloads policy orc fs p w.limiter w.stats req now
    have hblt : (w.stats.downloads : Int) < m := (hinv w hw).1 hrun
    constructor
    · rw [applyRequest_stats]
      exact hle
    · intro hge
      rw [applyRequest_stats] at hge
      have hgt : w.stats.downloads <
          (handleFileRequest policy orc fs p w.limiter w.stats req now).stats.downloads := by
        omega
      have hstopr := himp hgt
      have hsome :
          (handleFileRequest policy orc fs p w.limiter w.stats req now).stopReason =
            some "max_downloads_reached" := by
        rw [hstopr, checkMaxDownloadsReason.eq_def, hm]
        dsimp only
        rw [if_pos hge]
      simp [applyRequest, hsome]
  | stop reason hrun =>
    have hblt : (w.stats.downloads : Int) < m := (hinv w hw).1 hrun
    exact ⟨le_refl _, fun hge => absurd hge (by dsimp at hge ⊢; omega)⟩

/-- Witness for C2 at the initial state of a session with `maxDownloads = 1`. -/
theorem downloads_quota_witness :
    (((⟨⟨0, 0, 0, none⟩, false, none, []⟩ : SessionWorld).stats.downloads : Int) ≤ 1 + 1) :=
  (downloads_quota ⟨false, 60000, 240⟩ trivialOracles emptyFs
    ⟨["tmp", "ws"], FileShareMode.normal, FilePresentationMode.download, some 1,
      ["a.txt"], false, []⟩ 1 rfl (by decide)
    ⟨⟨0, 0, 0, none⟩, false, none, []⟩ rfl rfl _ Relation.ReflTransGen.refl).1

end Cfshare
